import Mathlib

/-!
# Verification of the Actual budget schedule engine and exchange-rate service

This development shallowly embeds the core logic of
`packages/loot-core/src/server/schedules/app.ts` (schedule creation, update,
advancement, export/import name resolution) and
`packages/loot-core/src/server/exchange-rate/service.ts` (rate cache and
lookup) in Lean 4, and proves properties of the embedded definitions.

Modelling conventions:
* JavaScript values flowing through rule conditions/actions are modelled by a
  first-order value type (`JPrim`/`JVal`/`Entry`): primitives, flat lists of
  primitives, and structured recurrence descriptors.  This covers every shape
  the embedded code distinguishes (`typeof x === 'string'`,
  `Array.isArray(x)`, `isObject(x)`, field access and object spread).
* The persistent store is explicit state: association lists keyed the same way
  the SQL tables are keyed.  `INSERT OR REPLACE` becomes replace-or-append on
  the primary key.
* Fallible stateful operations return `State × Except String α` so that
  mutations performed before a thrown error remain observable, exactly as a
  thrown JS exception leaves earlier awaited writes committed.
* ISO timestamps are modelled as integers (milliseconds); ISO `YYYY-MM-DD`
  dates as strings or as `SDate` triples where arithmetic is needed.  For ISO
  UTC strings, lexicographic and chronological order agree, so this is
  faithful to the `ORDER BY timestamp DESC` / `getTime()` uses in the source.
-/

deriving instance DecidableEq for Except

/-! ## JavaScript value model -/

/-- A JavaScript primitive (or anything the embedded code treats atomically). -/
inductive JPrim where
  | null
  | jbool (b : Bool)
  | jnum (n : Int)
  | jstr (s : String)
deriving DecidableEq, Repr

/-- A recurrence descriptor: `{ start, frequency, patterns: [{type:'day', value:n}, ...] }`.
Patterns are modelled by their day-of-month values (the `{type:'day'}` form used
throughout the repository's schedules). -/
structure RecurConfig where
  start : String
  frequency : String
  patterns : List Int
deriving DecidableEq, Repr

/-- Value of a field of a rule condition/action object. -/
inductive JVal where
  | prim (p : JPrim)
  | list (xs : List JPrim)
  | recur (r : RecurConfig)
deriving DecidableEq, Repr

/-- A rule condition or action entry: either a JS object (ordered field list) or a
non-object value passed through unchanged by the mapping code. -/
inductive Entry where
  | prim (p : JPrim)
  | node (fields : List (String × JVal))
deriving DecidableEq, Repr

namespace Entry

/-- `isObject(entry)` from app.ts. -/
def isObj : Entry → Bool
  | .node _ => true
  | .prim _ => false

/-- Field access `entry.f` (`none` = `undefined`). -/
def get : Entry → String → Option JVal
  | .prim _, _ => none
  | .node fs, f => (fs.find? (fun p => p.1 = f)).map (·.2)

/-- Object spread update `{...entry, f: v}`: replaces the field in place or
appends it, preserving JS object key order. -/
def set : Entry → String → JVal → Entry
  | .prim p, _, _ => .prim p
  | .node fs, f, v =>
    if fs.any (fun p => p.1 = f) then
      .node (fs.map (fun p => if p.1 = f then (f, v) else p))
    else
      .node (fs ++ [(f, v)])

/-- Destructuring removal `{a, b, ...rest} = entry`. -/
def remove : Entry → List String → Entry
  | .prim p, _ => .prim p
  | .node fs, ks => .node (fs.filter (fun p => p.1 ∉ ks))

/-- `entry.f` when the code requires a string (`typeof entry.f === 'string'`). -/
def getStr (e : Entry) (f : String) : Option String :=
  match e.get f with
  | some (.prim (.jstr s)) => some s
  | _ => none

end Entry

/-! ## Name normalization and lookup tables (app.ts `normalizeName`,
`buildNameLookup`, `buildCategoryLookup`, `mapCategoryNameToId`) -/

/-- ASCII whitespace; stands in for the whitespace class of JS `String.trim`. -/
def isSpaceChar (c : Char) : Bool :=
  c = ' ' || c = '\t' || c = '\n' || c = '\r'

def trimChars (l : List Char) : List Char :=
  ((l.dropWhile isSpaceChar).reverse.dropWhile isSpaceChar).reverse

/-- `normalizeName` (app.ts:85): trim, reject empty, lowercase.  The
`typeof name !== 'string'` guard is vacuous here because the embedding types
names as strings. -/
def normalizeName (name : String) : Option String :=
  let trimmed := trimChars name.data
  if trimmed.isEmpty then none
  else some (String.mk (trimmed.map Char.toLower))

/-- A JS `Map<string,string>` with insertion-ordered keys. -/
abbrev SMap := List (String × String)

def mapHas (m : SMap) (k : String) : Bool := m.any (fun p => p.1 = k)

def mapGet (m : SMap) (k : String) : Option String :=
  (m.find? (fun p => p.1 = k)).map (·.2)

def mapSet (m : SMap) (k v : String) : SMap :=
  if mapHas m k then m.map (fun p => if p.1 = k then (k, v) else p)
  else m ++ [(k, v)]

def mapDelete (m : SMap) (k : String) : SMap :=
  m.filter (fun p => p.1 ≠ k)

/-- A JS `Set<string>`. -/
abbrev StrSet := List String

def setHas (s : StrSet) (k : String) : Bool := s.any (fun x => x = k)

def setAdd (s : StrSet) (k : String) : StrSet :=
  if setHas s k then s else s ++ [k]

/-- An `{id, name}` row (account, payee, or category). -/
structure NamedItem where
  id : String
  name : String
deriving DecidableEq, Repr

/-- An `{id, name, groupName}` category row. -/
structure CatItem where
  id : String
  name : String
  groupName : Option String
deriving DecidableEq, Repr

structure NameLookup where
  idsByName : SMap
  ambiguousNames : StrSet
deriving DecidableEq, Repr

/-- One iteration of the `buildNameLookup` loop (app.ts:129-144). -/
def buildNameLookupStep (acc : NameLookup) (item : NamedItem) : NameLookup :=
  match normalizeName item.name with
  | none => acc
  | some normalized =>
    if mapHas acc.idsByName normalized then
      { idsByName := mapDelete acc.idsByName normalized
        ambiguousNames := setAdd acc.ambiguousNames normalized }
    else if setHas acc.ambiguousNames normalized then acc
    else { acc with idsByName := mapSet acc.idsByName normalized item.id }

/-- `buildNameLookup` (app.ts:123). -/
def buildNameLookup (items : List NamedItem) : NameLookup :=
  items.foldl buildNameLookupStep ⟨[], []⟩

/-- Separator of the scoped category key `${name}\u0000${group}`. -/
def scopedKey (n g : String) : String :=
  n ++ String.mk ['\x00'] ++ g

structure CategoryLookup where
  idsByName : SMap
  ambiguousNames : StrSet
  idsByNameAndGroup : SMap
deriving DecidableEq, Repr

/-- One iteration of the scoped-map loop of `buildCategoryLookup` (app.ts:155-163). -/
def buildCategoryScopedStep (m : SMap) (it : CatItem) : SMap :=
  match normalizeName it.name, it.groupName.bind (fun g => normalizeName g) with
  | some n, some g => mapSet m (scopedKey n g) it.id
  | _, _ => m

/-- `buildCategoryLookup` (app.ts:149). -/
def buildCategoryLookup (items : List CatItem) : CategoryLookup :=
  let base := buildNameLookup (items.map (fun it => ⟨it.id, it.name⟩))
  let scopedM := items.foldl buildCategoryScopedStep []
  { idsByName := base.idsByName
    ambiguousNames := base.ambiguousNames
    idsByNameAndGroup := scopedM }

/-- `mapCategoryNameToId` (app.ts:220): scoped name+group match first, then the
unscoped fallback, failing on ambiguity. -/
def mapCategoryNameToId (value : String) (groupName : Option String)
    (lk : CategoryLookup) : Except String String :=
  match normalizeName value with
  | none => .ok value
  | some normalizedName =>
    let scopedResult : Option (Except String String) :=
      match groupName with
      | none => none
      | some g =>
        match normalizeName g with
        | none => none
        | some normalizedGroup =>
          match mapGet lk.idsByNameAndGroup (scopedKey normalizedName normalizedGroup) with
          | some scopedId => some (.ok scopedId)
          | none =>
            if setHas lk.ambiguousNames normalizedName then
              some (.error ("Category not found with group: " ++ value ++ " (" ++ g ++ ")"))
            else none
    match scopedResult with
    | some r => r
    | none =>
      if setHas lk.ambiguousNames normalizedName then
        .error ("Category name is ambiguous: " ++ value)
      else
        match mapGet lk.idsByName normalizedName with
        | some id => .ok id
        | none => .error ("Category not found: " ++ value)


/-! ### Lemmas about the lookup tables -/

theorem mapHas_map_replace (m : SMap) (k v n : String) :
    mapHas (m.map (fun p => if p.1 = k then (k, v) else p)) n = mapHas m n := by
  induction m with
  | nil => rfl
  | cons p rest ih =>
    simp only [List.map_cons, mapHas, List.any_cons] at *
    by_cases hp : p.1 = k
    · simp [hp, ih]
    · simp [hp, ih]

theorem mapHas_mapSet (m : SMap) (k v n : String) :
    mapHas (mapSet m k v) n = (decide (n = k) || mapHas m n) := by
  unfold mapSet
  by_cases hk : mapHas m k
  · rw [if_pos hk, mapHas_map_replace]
    by_cases hn : n = k
    · subst hn; simp [hk]
    · simp [hn]
  · rw [if_neg hk]
    simp only [mapHas, List.any_append, List.any_cons, List.any_nil]
    by_cases hn : n = k
    · subst hn; simp
    · simp [hn, show ¬(k = n) from fun h => hn h.symm, mapHas]

theorem mapHas_mapDelete (m : SMap) (k n : String) :
    mapHas (mapDelete m k) n = (!decide (n = k) && mapHas m n) := by
  induction m with
  | nil => simp [mapDelete, mapHas]
  | cons p rest ih =>
    simp only [mapDelete, mapHas, List.filter_cons] at *
    by_cases hp : p.1 = k
    · by_cases hn : n = k
      · simp_all
      · simp_all [show ¬(k = n) from fun hq => hn hq.symm]
    · by_cases hn : n = k <;> by_cases hpn : p.1 = n <;> simp_all

theorem setHas_setAdd (s : StrSet) (k n : String) :
    setHas (setAdd s k) n = (decide (n = k) || setHas s n) := by
  unfold setAdd
  by_cases hk : setHas s k
  · rw [if_pos hk]
    by_cases hn : n = k
    · subst hn; simp [hk]
    · simp [hn]
  · rw [if_neg hk]
    simp only [setHas, List.any_append, List.any_cons, List.any_nil]
    by_cases hn : n = k
    · subst hn; simp
    · simp [hn, show ¬(k = n) from fun h => hn h.symm]

/-- Number of items whose normalized name is `n`. -/
def nameCount (items : List NamedItem) (n : String) : Nat :=
  items.countP (fun it => decide (normalizeName it.name = some n))

theorem nameCount_append (a b : List NamedItem) (n : String) :
    nameCount (a ++ b) n = nameCount a n + nameCount b n := by
  simp [nameCount, List.countP_append]

/-- The loop invariant of `buildNameLookup`: membership in `idsByName` means the
normalized name was seen exactly once so far; membership in `ambiguousNames`
means it was seen at least twice. -/
def NameLookupInv (processed : List NamedItem) (acc : NameLookup) : Prop :=
  ∀ n : String,
    (mapHas acc.idsByName n = true ↔ nameCount processed n = 1) ∧
    (setHas acc.ambiguousNames n = true ↔ 2 ≤ nameCount processed n)

theorem buildNameLookupStep_inv (processed : List NamedItem) (acc : NameLookup)
    (it : NamedItem) (h : NameLookupInv processed acc) :
    NameLookupInv (processed ++ [it]) (buildNameLookupStep acc it) := by
  intro n
  have hcount : nameCount (processed ++ [it]) n =
      nameCount processed n + nameCount [it] n := nameCount_append _ _ _
  match hnorm : normalizeName it.name with
  | none =>
    have hz : nameCount [it] n = 0 := by
      simp [nameCount, List.countP_cons, hnorm]
    rw [hcount, hz, Nat.add_zero]
    simpa [buildNameLookupStep, hnorm] using h n
  | some m =>
    by_cases hnm : n = m
    · subst hnm
      have hone : nameCount [it] n = 1 := by
        simp [nameCount, List.countP_cons, hnorm]
      rw [hcount, hone]
      obtain ⟨h1, h2⟩ := h n
      by_cases hmap : mapHas acc.idsByName n
      · have hc1 : nameCount processed n = 1 := h1.mp hmap
        rw [hc1]
        simp [buildNameLookupStep, hnorm, hmap, mapHas_mapDelete, setHas_setAdd]
      · by_cases hamb : setHas acc.ambiguousNames n
        · have hc2 : 2 ≤ nameCount processed n := h2.mp hamb
          simp only [buildNameLookupStep, hnorm, hmap, Bool.false_eq_true,
            if_false, hamb, if_true]
          constructor
          · simp only [hmap, Bool.false_eq_true, false_iff]
            omega
          · simp only [hamb, true_iff]
            omega
        · have hc0 : nameCount processed n = 0 := by
            rcases Nat.lt_or_ge (nameCount processed n) 1 with hlt | hge
            · omega
            · rcases Nat.lt_or_ge (nameCount processed n) 2 with hlt2 | hge2
              · have : nameCount processed n = 1 := by omega
                exact absurd (h1.mpr this) hmap
              · exact absurd (h2.mpr hge2) hamb
          rw [hc0]
          simp [buildNameLookupStep, hnorm, hmap, hamb, mapHas_mapSet,
            setHas_setAdd]
    · have hz : nameCount [it] n = 0 := by
        simp [nameCount, List.countP_cons, hnorm,
          show ¬(m = n) from fun hq => hnm hq.symm]
      rw [hcount, hz, Nat.add_zero]
      obtain ⟨h1, h2⟩ := h n
      unfold buildNameLookupStep
      rw [hnorm]
      by_cases hmap : mapHas acc.idsByName m
      · simpa [hmap, mapHas_mapDelete, setHas_setAdd, hnm] using And.intro h1 h2
      · by_cases hamb : setHas acc.ambiguousNames m
        · simpa [hmap, hamb] using And.intro h1 h2
        · simpa [hmap, hamb, mapHas_mapSet, hnm] using And.intro h1 h2

theorem buildNameLookup_foldl_inv (items : List NamedItem) :
    ∀ (processed : List NamedItem) (acc : NameLookup),
      NameLookupInv processed acc →
      NameLookupInv (processed ++ items) (items.foldl buildNameLookupStep acc) := by
  induction items with
  | nil => intro processed acc h; simpa using h
  | cons it rest ih =>
    intro processed acc h
    have hstep := buildNameLookupStep_inv processed acc it h
    have := ih (processed ++ [it]) (buildNameLookupStep acc it) hstep
    simpa [List.append_assoc] using this

theorem buildNameLookup_inv (items : List NamedItem) :
    NameLookupInv items (buildNameLookup items) := by
  have h0 : NameLookupInv [] ⟨[], []⟩ := by
    intro n
    constructor <;> simp [mapHas, setHas, nameCount]
  simpa using buildNameLookup_foldl_inv items [] ⟨[], []⟩ h0

theorem mapGet_eq_none_of_not_has (m : SMap) (k : String)
    (h : mapHas m k = false) : mapGet m k = none := by
  induction m with
  | nil => rfl
  | cons p rest ih =>
    simp only [mapHas, List.any_cons, Bool.or_eq_false_iff, decide_eq_false_iff_not] at h
    rw [mapGet, List.find?_cons_of_neg _ (by simpa using h.1)]
    exact ih (by simpa [mapHas] using h.2)

theorem mapGet_map_replace_self (m : SMap) (k v : String)
    (h : mapHas m k = true) :
    mapGet (m.map (fun p => if p.1 = k then (k, v) else p)) k = some v := by
  induction m with
  | nil => simp [mapHas] at h
  | cons p rest ih =>
    by_cases hp : p.1 = k
    · rw [List.map_cons, mapGet, if_pos hp,
        List.find?_cons_of_pos _ (by simp)]
      rfl
    · simp only [mapHas, List.any_cons, Bool.or_eq_true, decide_eq_true_eq] at h
      rcases h with h | h
      · exact absurd h hp
      · rw [List.map_cons, mapGet, if_neg hp,
          List.find?_cons_of_neg _ (by simpa using hp)]
        exact ih (by simpa [mapHas] using h)

theorem mapGet_map_replace_ne (m : SMap) (k v n : String) (hn : ¬n = k) :
    mapGet (m.map (fun p => if p.1 = k then (k, v) else p)) n = mapGet m n := by
  induction m with
  | nil => rfl
  | cons p rest ih =>
    by_cases hp : p.1 = k
    · have h1 : ¬(k = n) := fun hq => hn hq.symm
      have h2 : ¬(p.1 = n) := by rw [hp]; exact h1
      rw [List.map_cons, mapGet, if_pos hp,
        List.find?_cons_of_neg _ (by simpa using h1), mapGet,
        List.find?_cons_of_neg _ (by simpa using h2)]
      exact ih
    · by_cases hpn : p.1 = n
      · rw [List.map_cons, mapGet, if_neg hp,
          List.find?_cons_of_pos _ (by simpa using hpn), mapGet,
          List.find?_cons_of_pos _ (by simpa using hpn)]
      · rw [List.map_cons, mapGet, if_neg hp,
          List.find?_cons_of_neg _ (by simpa using hpn), mapGet,
          List.find?_cons_of_neg _ (by simpa using hpn)]
        exact ih

theorem mapGet_append_single (m : SMap) (k v n : String) :
    mapGet (m ++ [(k, v)]) n =
      match mapGet m n with
      | some w => some w
      | none => if n = k then some v else none := by
  induction m with
  | nil =>
    by_cases hn : n = k
    · subst hn
      rw [List.nil_append, mapGet, List.find?_cons_of_pos _ (by simp)]
      simp [mapGet]
    · rw [List.nil_append, mapGet,
        List.find?_cons_of_neg _ (by simpa using fun hq => hn hq.symm)]
      simp [mapGet, hn]
  | cons p rest ih =>
    by_cases hpn : p.1 = n
    · rw [List.cons_append, mapGet, List.find?_cons_of_pos _ (by simpa using hpn),
        mapGet, List.find?_cons_of_pos _ (by simpa using hpn)]
      simp
    · rw [List.cons_append, mapGet, List.find?_cons_of_neg _ (by simpa using hpn),
        mapGet, List.find?_cons_of_neg _ (by simpa using hpn)]
      exact ih

theorem mapGet_mapSet (m : SMap) (k v n : String) :
    mapGet (mapSet m k v) n = if n = k then some v else mapGet m n := by
  unfold mapSet
  by_cases hk : mapHas m k
  · rw [if_pos hk]
    by_cases hn : n = k
    · subst hn
      rw [if_pos rfl]
      exact mapGet_map_replace_self m n v hk
    · rw [if_neg hn]
      exact mapGet_map_replace_ne m k v n hn
  · rw [if_neg hk, mapGet_append_single]
    by_cases hn : n = k
    · subst hn
      rw [mapGet_eq_none_of_not_has m n (by simpa using hk)]
    · match hm : mapGet m n with
      | some w => simp [hn]
      | none => simp [hn]

theorem scopedFold_mem (items : List CatItem) :
    ∀ (m₀ : SMap) (k cid : String),
      mapGet (items.foldl buildCategoryScopedStep m₀) k = some cid →
      mapGet m₀ k = some cid ∨
        ∃ it ∈ items, it.id = cid ∧ ∃ n g,
          normalizeName it.name = some n ∧
          it.groupName.bind (fun x => normalizeName x) = some g ∧
          scopedKey n g = k := by
  induction items with
  | nil => intro m₀ k cid h; exact Or.inl h
  | cons it rest ih =>
    intro m₀ k cid h
    rw [List.foldl_cons] at h
    rcases ih _ _ _ h with hbase | ⟨it', hmem, hrest⟩
    · unfold buildCategoryScopedStep at hbase
      match hn : normalizeName it.name, hg : it.groupName.bind (fun x => normalizeName x) with
      | some n, some g =>
        rw [hn, hg] at hbase
        rw [mapGet_mapSet] at hbase
        by_cases hk : k = scopedKey n g
        · rw [if_pos hk] at hbase
          exact Or.inr ⟨it, List.mem_cons_self _ _, Option.some.inj hbase,
            n, g, hn, hg, hk.symm⟩
        · rw [if_neg hk] at hbase
          exact Or.inl hbase
      | some n, none => rw [hn, hg] at hbase; exact Or.inl hbase
      | none, some g => rw [hn, hg] at hbase; exact Or.inl hbase
      | none, none => rw [hn, hg] at hbase; exact Or.inl hbase
    · exact Or.inr ⟨it', List.mem_cons_of_mem _ hmem, hrest⟩

/-- C10: `buildNameLookup` guarantees, for every input list of `{id, name}` items,
that a normalized (trimmed, lowercased) name appears in `idsByName` iff exactly one
item normalizes to it (names normalizing to nothing are ignored); names borne by
two or more items are in `ambiguousNames` and absent from `idsByName`; the two
sets are disjoint; and the classification is independent of item order. -/
theorem buildNameLookup_unique_name_resolution (items : List NamedItem) (n : String) :
    (mapHas (buildNameLookup items).idsByName n = true ↔ nameCount items n = 1) ∧
    (setHas (buildNameLookup items).ambiguousNames n = true ↔ 2 ≤ nameCount items n) ∧
    ¬(mapHas (buildNameLookup items).idsByName n = true ∧
      setHas (buildNameLookup items).ambiguousNames n = true) ∧
    (∀ items' : List NamedItem, items.Perm items' →
      mapHas (buildNameLookup items').idsByName n
        = mapHas (buildNameLookup items).idsByName n ∧
      setHas (buildNameLookup items').ambiguousNames n
        = setHas (buildNameLookup items).ambiguousNames n) := by
  obtain ⟨h1, h2⟩ := buildNameLookup_inv items n
  refine ⟨h1, h2, ?_, ?_⟩
  · rintro ⟨ha, hb⟩
    have ca := h1.mp ha
    have cb := h2.mp hb
    omega
  · intro items' hperm
    obtain ⟨h1', h2'⟩ := buildNameLookup_inv items' n
    have hcount : nameCount items n = nameCount items' n :=
      hperm.countP_eq _
    constructor
    · rw [Bool.eq_iff_iff, h1', h1, hcount]
    · rw [Bool.eq_iff_iff, h2', h2, hcount]

/-- Witness for the C10 theorem: a duplicated name ("Rent"/" rent ") is ambiguous,
and the classification of "food" survives a concrete permutation of the items. -/
theorem buildNameLookup_unique_name_resolution_witness :
    (setHas (buildNameLookup
        ([⟨"a1", " Rent"⟩, ⟨"a2", "rent "⟩, ⟨"a3", "Food"⟩] : List NamedItem)).ambiguousNames
        "rent" = true) ∧
    (mapHas (buildNameLookup
        ([⟨"a2", "rent "⟩, ⟨"a3", "Food"⟩, ⟨"a1", " Rent"⟩] : List NamedItem)).idsByName "food"
      = mapHas (buildNameLookup
        ([⟨"a1", " Rent"⟩, ⟨"a2", "rent "⟩, ⟨"a3", "Food"⟩] : List NamedItem)).idsByName "food") :=
  ⟨(buildNameLookup_unique_name_resolution _ "rent").2.1.mpr (by decide),
   ((buildNameLookup_unique_name_resolution _ "food").2.2.2 _ (by decide)).1⟩

/-- C4: during import, a category reference carrying a group name resolves through
the scoped name+group map, even when the bare name is ambiguous across groups; the
scoped map only contains categories whose normalized name and group both match the
key; the unscoped lookup is a fallback used only when the name is unambiguous, and
an ambiguous unscoped reference fails with an error rather than guessing. -/
theorem mapCategoryNameToId_scoped_resolution (items : List CatItem)
    (value n : String) (hval : normalizeName value = some n) :
    (∀ g ng scopedId, normalizeName g = some ng →
        mapGet (buildCategoryLookup items).idsByNameAndGroup (scopedKey n ng)
          = some scopedId →
        mapCategoryNameToId value (some g) (buildCategoryLookup items)
          = .ok scopedId) ∧
    (∀ k cid, mapGet (buildCategoryLookup items).idsByNameAndGroup k = some cid →
        ∃ it ∈ items, it.id = cid ∧ ∃ n' g',
          normalizeName it.name = some n' ∧
          it.groupName.bind (fun x => normalizeName x) = some g' ∧
          scopedKey n' g' = k) ∧
    (∀ g ng, normalizeName g = some ng →
        mapGet (buildCategoryLookup items).idsByNameAndGroup (scopedKey n ng) = none →
        setHas (buildCategoryLookup items).ambiguousNames n = true →
        mapCategoryNameToId value (some g) (buildCategoryLookup items)
          = .error ("Category not found with group: " ++ value ++ " (" ++ g ++ ")")) ∧
    (setHas (buildCategoryLookup items).ambiguousNames n = true →
        mapCategoryNameToId value none (buildCategoryLookup items)
          = .error ("Category name is ambiguous: " ++ value)) ∧
    (setHas (buildCategoryLookup items).ambiguousNames n = false →
        ∀ cid, mapGet (buildCategoryLookup items).idsByName n = some cid →
        mapCategoryNameToId value none (buildCategoryLookup items) = .ok cid) ∧
    (setHas (buildCategoryLookup items).ambiguousNames n = true ↔
        2 ≤ nameCount (items.map (fun it => ⟨it.id, it.name⟩)) n) := by
  refine ⟨?_, ?_, ?_, ?_, ?_, ?_⟩
  · intro g ng scopedId hg hscoped
    simp [mapCategoryNameToId, hval, hg, hscoped]
  · intro k cid h
    have h' : mapGet (items.foldl buildCategoryScopedStep []) k = some cid := h
    rcases scopedFold_mem items [] k cid h' with hbase | hfound
    · simp [mapGet] at hbase
    · exact hfound
  · intro g ng hg hscoped hamb
    simp [mapCategoryNameToId, hval, hg, hscoped, hamb]
  · intro hamb
    simp [mapCategoryNameToId, hval, hamb]
  · intro hamb cid hget
    simp [mapCategoryNameToId, hval, hamb, hget]
  · have := (buildNameLookup_inv (items.map (fun it => ⟨it.id, it.name⟩))
      n).2
    exact this

/-- Witness for the C4 theorem: two categories both named "Rent" in groups
"Housing" and "Bills"; a reference tagged with group "Bills" resolves to the
"Bills" category, while an untagged reference fails as ambiguous. -/
theorem mapCategoryNameToId_scoped_resolution_witness :
    normalizeName "Rent" = some "rent" ∧
    mapCategoryNameToId "Rent" (some "Bills")
      (buildCategoryLookup
        ([⟨"c1", "Rent", some "Housing"⟩, ⟨"c2", "Rent", some "Bills"⟩] : List CatItem))
      = .ok "c2" ∧
    mapCategoryNameToId "Rent" none
      (buildCategoryLookup
        ([⟨"c1", "Rent", some "Housing"⟩, ⟨"c2", "Rent", some "Bills"⟩] : List CatItem))
      = .error ("Category name is ambiguous: Rent") :=
  ⟨by decide,
   (mapCategoryNameToId_scoped_resolution _ "Rent" "rent" (by decide)).1
     "Bills" "bills" "c2" (by decide) (by decide),
   (mapCategoryNameToId_scoped_resolution _ "Rent" "rent" (by decide)).2.2.2.1
     (by decide)⟩

/-! ## Exchange rate service (exchange-rate/service.ts)

The service state is explicit; timestamps are epoch milliseconds.  Rates are
rationals standing in for JS floating-point numbers: the code performs only the
division `1 / reverseRate` on them, guarded by a zero test.  Each operation
returns an event trace recording provider fetches and cache reads/writes; the
fire-and-forget lazy start of the periodic loop that `getRate` may schedule is
recorded as a `startPeriodicTrigger` event (its own fetches happen inside the
detached periodic task, not inside the `getRate` call). -/

/-- A persisted `exchange_rates` row. -/
structure ExchangeRateEntity where
  id : String
  from_currency : String
  to_currency : String
  rate : Rat
  date : String
  timestamp : Int
  source : String
deriving DecidableEq, Repr

/-- A rate datum returned by a provider (`types.ts`); `timestamp = none` models a
provider that supplied no timestamp (`rateData.timestamp || fallbackTimestamp`). -/
structure ExchangeRateData where
  from_currency : String
  to_currency : String
  rate : Rat
  date : String
  source : String
  timestamp : Option Int
deriving DecidableEq, Repr

/-- A provider.  `fetchRates` returning `none` models a thrown (caught) error;
`fetchHistoricalRate = none` models a provider without the optional method, and
its inner results model throw / `null` / a rate. -/
structure RateProvider where
  name : String
  supportsHistory : Bool
  fetchRates : String → List String → Option (List ExchangeRateData)
  fetchHistoricalRate : Option (String → String → String → Option (Option Rat))

structure RateServiceState where
  providers : List RateProvider
  initProviders : List RateProvider
  hasOpenExchangeRatesAppId : Bool
  periodicUpdatesStarted : Bool
  cache : List ExchangeRateEntity

inductive RateEvent where
  | providerFetch (provider base : String) (targets : List String)
  | providerFetchHistorical (provider fromCurrency toCurrency date : String)
  | cacheWrite (row : ExchangeRateEntity)
  | cacheRead (fromCurrency toCurrency date : String)
  | startPeriodicTrigger
deriving DecidableEq, Repr

def RateEvent.isProviderAccess : RateEvent → Bool
  | .providerFetch _ _ _ => true
  | .providerFetchHistorical _ _ _ _ => true
  | _ => false

def RateEvent.isCacheWrite : RateEvent → Bool
  | .cacheWrite _ => true
  | _ => false

/-- Row predicate of `WHERE from_currency = ? AND to_currency = ? AND date = ?`. -/
def rowMatches (f t d : String) (r : ExchangeRateEntity) : Bool :=
  r.from_currency = f && r.to_currency = t && r.date = d

/-- `db.first(... ORDER BY timestamp DESC LIMIT 1)`. -/
def selectLatestRate (cache : List ExchangeRateEntity) (f t d : String) :
    Option ExchangeRateEntity :=
  (cache.filter (rowMatches f t d)).foldl
    (fun best r =>
      match best with
      | none => some r
      | some b => if b.timestamp < r.timestamp then some r else some b)
    none

/-- The deterministic cache id `${from}-${to}-${date}` (service.ts:318). -/
def rateKeyOf (f t d : String) : String := f ++ "-" ++ t ++ "-" ++ d

/-- `INSERT OR REPLACE` keyed on the primary-key `id`. -/
def upsertById (cache : List ExchangeRateEntity) (row : ExchangeRateEntity) :
    List ExchangeRateEntity :=
  if cache.any (fun r => r.id = row.id) then
    cache.map (fun r => if r.id = row.id then row else r)
  else cache ++ [row]

/-- The row `cacheRate` inserts, with the caller-resolved timestamp. -/
def mkRateRowOf (d : ExchangeRateData) (resolvedTs : Int) : ExchangeRateEntity :=
  { id := rateKeyOf d.from_currency d.to_currency d.date
    from_currency := d.from_currency
    to_currency := d.to_currency
    rate := d.rate
    date := d.date
    timestamp := resolvedTs
    source := d.source }

/-- `cacheRate` (service.ts:315). -/
def cacheRate (cache : List ExchangeRateEntity) (d : ExchangeRateData)
    (resolvedTs : Int) : List ExchangeRateEntity :=
  upsertById cache (mkRateRowOf d resolvedTs)

/-- Inner loop of `fetchAndCacheRates`: cache every datum one provider returned. -/
def cacheProviderRows (fallbackTs : Int)
    (acc : List ExchangeRateEntity × List RateEvent) (rows : List ExchangeRateData) :
    List ExchangeRateEntity × List RateEvent :=
  rows.foldl
    (fun acc2 d =>
      let ts := d.timestamp.getD fallbackTs
      (cacheRate acc2.1 d ts, acc2.2 ++ [RateEvent.cacheWrite (mkRateRowOf d ts)]))
    acc

/-- One provider step of `fetchAndCacheRates` (service.ts:299-312): failures are
caught and skipped, every non-failed result list is cached in full. -/
def fetchProviderStep (fallbackTs : Int) (base : String) (targets : List String)
    (acc : List ExchangeRateEntity × List RateEvent) (p : RateProvider) :
    List ExchangeRateEntity × List RateEvent :=
  let acc := (acc.1, acc.2 ++ [RateEvent.providerFetch p.name base targets])
  match p.fetchRates base targets with
  | none => acc
  | some rows => cacheProviderRows fallbackTs acc rows

/-- `fetchAndCacheRates` (service.ts:289). -/
def fetchAndCacheRates (now : Int) (s : RateServiceState) (base : String)
    (targets : List String) : RateServiceState × List RateEvent :=
  let s := if s.providers.isEmpty then { s with providers := s.initProviders } else s
  let (cache', evs) := s.providers.foldl (fetchProviderStep now base targets) (s.cache, [])
  ({ s with cache := cache' }, evs)

/-- `getNextUpdateDelay` (service.ts:540): 60 minutes with a keyed provider,
15 minutes otherwise, in milliseconds. -/
def getNextUpdateDelay (hasAppId : Bool) : Int :=
  let secondsInMinute : Int := 60
  let msInSecond : Int := 1000
  let minutes : Int := if hasAppId then 60 else 15
  minutes * secondsInMinute * msInSecond

/-- The historical-provider loop of `getRate` (service.ts:387-416): first
non-null historical rate is cached and returned, errors and nulls skip to the
next provider. -/
def historicalFetchLoop (now : Int) (fromCurrency toCurrency targetDate : String) :
    List RateProvider → List ExchangeRateEntity →
    Option Rat × List ExchangeRateEntity × List RateEvent
  | [], cache => (none, cache, [])
  | p :: rest, cache =>
    if p.supportsHistory then
      match p.fetchHistoricalRate with
      | none => historicalFetchLoop now fromCurrency toCurrency targetDate rest cache
      | some fetchHist =>
        let ev := RateEvent.providerFetchHistorical p.name fromCurrency toCurrency targetDate
        match fetchHist fromCurrency toCurrency targetDate with
        | some (some rate) =>
          let d : ExchangeRateData :=
            ⟨fromCurrency, toCurrency, rate, targetDate, p.name, some now⟩
          (some rate, cacheRate cache d now, [ev, RateEvent.cacheWrite (mkRateRowOf d now)])
        | some none =>
          let (r, c, evs) :=
            historicalFetchLoop now fromCurrency toCurrency targetDate rest cache
          (r, c, ev :: evs)
        | none =>
          let (r, c, evs) :=
            historicalFetchLoop now fromCurrency toCurrency targetDate rest cache
          (r, c, ev :: evs)
    else historicalFetchLoop now fromCurrency toCurrency targetDate rest cache

/-- The fetch phase of `getRate` after a cache miss (or stale today-rate):
historical provider loop for non-today dates, then the live multi-provider
fetch.  Returns `some r` only on a historical hit. -/
def rateFetchPhase (now : Int) (isToday : Bool) (s : RateServiceState)
    (fromCurrency toCurrency targetDate : String) :
    Option Rat × RateServiceState × List RateEvent :=
  let (histRate, cache1, evs1) :=
    if isToday then (none, s.cache, [])
    else historicalFetchLoop now fromCurrency toCurrency targetDate s.providers s.cache
  match histRate with
  | some r => (some r, { s with cache := cache1 }, evs1)
  | none =>
    let (s2, evs2) := fetchAndCacheRates now { s with cache := cache1 } fromCurrency [toCurrency]
    (none, s2, evs1 ++ evs2)

/-- The miss path of `getRate` (service.ts:385-445): fetch phase, fresh re-read,
reverse-pair fallback with zero guard, else `null`. -/
def getRateMissPath (now : Int) (isToday : Bool) (s : RateServiceState)
    (fromCurrency toCurrency targetDate : String) :
    Option Rat × RateServiceState × List RateEvent :=
  match rateFetchPhase now isToday s fromCurrency toCurrency targetDate with
  | (some r, s', evs) => (some r, s', evs)
  | (none, s2, evs) =>
    let evFresh := RateEvent.cacheRead fromCurrency toCurrency targetDate
    match selectLatestRate s2.cache fromCurrency toCurrency targetDate with
    | some fresh => (some fresh.rate, s2, evs ++ [evFresh])
    | none =>
      let evRev := RateEvent.cacheRead toCurrency fromCurrency targetDate
      match selectLatestRate s2.cache toCurrency fromCurrency targetDate with
      | some rev =>
        if rev.rate ≠ 0 then (some (1 / rev.rate), s2, evs ++ [evFresh, evRev])
        else (none, s2, evs ++ [evFresh, evRev])
      | none => (none, s2, evs ++ [evFresh, evRev])

/-- `getRate` (service.ts:334). -/
def getRate (now : Int) (today : String) (s : RateServiceState)
    (fromCurrency toCurrency : String) (dateArg : Option String) :
    Option Rat × RateServiceState × List RateEvent :=
  if fromCurrency = toCurrency then (some 1, s, [])
  else
    let evs0 := if s.periodicUpdatesStarted then [] else [RateEvent.startPeriodicTrigger]
    let targetDate := dateArg.getD today
    let isToday := targetDate = today
    let evRead := RateEvent.cacheRead fromCurrency toCurrency targetDate
    match selectLatestRate s.cache fromCurrency toCurrency targetDate with
    | some cached =>
      if ¬isToday then (some cached.rate, s, evs0 ++ [evRead])
      else if now - cached.timestamp < getNextUpdateDelay s.hasOpenExchangeRatesAppId then
        (some cached.rate, s, evs0 ++ [evRead])
      else
        let (r, s', evs) := getRateMissPath now isToday s fromCurrency toCurrency targetDate
        (r, s', evs0 ++ [evRead] ++ evs)
    | none =>
      let (r, s', evs) := getRateMissPath now isToday s fromCurrency toCurrency targetDate
      (r, s', evs0 ++ [evRead] ++ evs)

/-- `addManualRate` (service.ts:557). -/
def addManualRate (now : Int) (today : String) (s : RateServiceState)
    (fromCurrency toCurrency : String) (rate : Rat) (dateArg : Option String) :
    RateServiceState × List RateEvent :=
  let targetDate := dateArg.getD today
  let d : ExchangeRateData := ⟨fromCurrency, toCurrency, rate, targetDate, "manual", some now⟩
  ({ s with cache := cacheRate s.cache d now },
   [RateEvent.cacheWrite (mkRateRowOf d now)])

/-- C9: `getRate(X, X, D)` returns exactly 1.0 for every currency `X` and date
argument `D`, leaves the service state untouched, and performs no cache read, no
cache write and no provider fetch (empty event trace). -/
theorem getRate_same_currency_one (now : Int) (today : String)
    (s : RateServiceState) (x : String) (dateArg : Option String) :
    getRate now today s x x dateArg = (some 1, s, []) := by
  simp [getRate]

/-- C7: once a historical (`date ≠ today`) rate is cached, `getRate` for that
pair and exact date returns the cached rate with the cache unchanged and with no
provider fetch and no cache write in its trace, regardless of the cached row's
timestamp. -/
theorem getRate_historical_cached_immutable (now : Int) (today : String)
    (s : RateServiceState) (f t d : String) (row : ExchangeRateEntity)
    (hne : f ≠ t) (hd : d ≠ today)
    (hcache : selectLatestRate s.cache f t d = some row) :
    ∃ evs, getRate now today s f t (some d) = (some row.rate, s, evs) ∧
      evs.all (fun e => !(e.isProviderAccess || e.isCacheWrite)) = true := by
  refine ⟨(if s.periodicUpdatesStarted then [] else [RateEvent.startPeriodicTrigger])
    ++ [RateEvent.cacheRead f t d], ?_, ?_⟩
  · simp [getRate, hne, hcache, hd]
  · by_cases h : s.periodicUpdatesStarted <;>
      simp [h, RateEvent.isProviderAccess, RateEvent.isCacheWrite]

/-- A concrete historical cache row used by the C7 witness. -/
def wRow7 : ExchangeRateEntity :=
  ⟨rateKeyOf "EUR" "USD" "2024-01-02", "EUR", "USD", 2, "2024-01-02", 0, "manual"⟩

/-- A concrete service state used by the C7 witness. -/
def wState7 : RateServiceState := ⟨[], [], false, true, [wRow7]⟩

/-- Witness for the C7 theorem at a concrete cache holding one historical row. -/
theorem getRate_historical_cached_immutable_witness :
    ("EUR" : String) ≠ "USD" ∧ ("2024-01-02" : String) ≠ "2024-06-01" ∧
    selectLatestRate wState7.cache "EUR" "USD" "2024-01-02" = some wRow7 ∧
    ∃ evs,
      getRate 999999 "2024-06-01" wState7 "EUR" "USD" (some "2024-01-02")
        = (some wRow7.rate, wState7, evs) ∧
      evs.all (fun e => !(e.isProviderAccess || e.isCacheWrite)) = true :=
  ⟨by decide, by decide, by decide,
   getRate_historical_cached_immutable 999999 "2024-06-01" wState7 "EUR" "USD"
     "2024-01-02" wRow7 (by decide) (by decide) (by decide)⟩

/-- C6: when `getRate(A,B,D)` finds no cached row and the fetch phase neither
returns a historical rate nor leaves a freshly fetched `(A,B,D)` row, then: a
cached reverse `(B,A,D)` row with nonzero rate `r` makes the call return `1/r`;
a reverse row with rate `0`, or no reverse row, makes it return `null` (no
division by zero, no throw). -/
theorem getRate_reverse_fallback (now : Int) (today : String)
    (s : RateServiceState) (f t : String) (dateArg : Option String)
    (hne : f ≠ t)
    (h1 : selectLatestRate s.cache f t (dateArg.getD today) = none)
    (h2 : (rateFetchPhase now (decide (dateArg.getD today = today)) s f t
        (dateArg.getD today)).1 = none)
    (h3 : selectLatestRate
        (rateFetchPhase now (decide (dateArg.getD today = today)) s f t
          (dateArg.getD today)).2.1.cache
        f t (dateArg.getD today) = none) :
    (∀ rev, selectLatestRate
        (rateFetchPhase now (decide (dateArg.getD today = today)) s f t
          (dateArg.getD today)).2.1.cache
        t f (dateArg.getD today) = some rev →
      (rev.rate ≠ 0 → (getRate now today s f t dateArg).1 = some (1 / rev.rate)) ∧
      (rev.rate = 0 → (getRate now today s f t dateArg).1 = none)) ∧
    (selectLatestRate
        (rateFetchPhase now (decide (dateArg.getD today = today)) s f t
          (dateArg.getD today)).2.1.cache
        t f (dateArg.getD today) = none →
      (getRate now today s f t dateArg).1 = none) := by
  rcases hfp : rateFetchPhase now (decide (dateArg.getD today = today)) s f t
      (dateArg.getD today) with ⟨r1, s2, evs2⟩
  rw [hfp] at h2 h3
  obtain rfl : r1 = none := h2
  have h3' : selectLatestRate s2.cache f t (dateArg.getD today) = none := h3
  constructor
  · intro rev hrev
    have hrev' : selectLatestRate s2.cache t f (dateArg.getD today) = some rev := hrev
    constructor
    · intro hnz
      simp [getRate, hne, h1, getRateMissPath, hfp, h3', hrev', hnz]
    · intro hz
      simp [getRate, hne, h1, getRateMissPath, hfp, h3', hrev', hz]
  · intro hnorev
    have hnorev' : selectLatestRate s2.cache t f (dateArg.getD today) = none := hnorev
    simp [getRate, hne, h1, getRateMissPath, hfp, h3', hnorev']

/-- The reverse-pair cache row used by the C6 witness. -/
def wRow6 : ExchangeRateEntity :=
  ⟨rateKeyOf "USD" "EUR" "2024-01-02", "USD", "EUR", 2, "2024-01-02", 5, "manual"⟩

/-- The service state used by the C6 witness: no providers, only a reverse row. -/
def wState6 : RateServiceState := ⟨[], [], false, true, [wRow6]⟩

/-- Witness for the C6 theorem: with only `(USD,EUR,D)` cached at rate 2,
`getRate(EUR,USD,D)` returns `1/2`. -/
theorem getRate_reverse_fallback_witness :
    ("EUR" : String) ≠ "USD" ∧
    selectLatestRate wState6.cache "EUR" "USD" "2024-01-02" = none ∧
    (getRate 0 "2024-06-01" wState6 "EUR" "USD" (some "2024-01-02")).1
      = some (1 / wRow6.rate) :=
  ⟨by decide, by decide,
   ((getRate_reverse_fallback 0 "2024-06-01" wState6 "EUR" "USD" (some "2024-01-02")
       (by decide) (by decide) (by decide) (by decide)).1 wRow6 (by decide)).1
     (by decide)⟩

/-- Well-formedness of the rate cache: every row's primary key is the
deterministic key of its `(from, to, date)` triple, and primary keys are
unique (the table's `id` PRIMARY KEY constraint). -/
def WfRateCache (cache : List ExchangeRateEntity) : Prop :=
  (∀ row ∈ cache, row.id = rateKeyOf row.from_currency row.to_currency row.date) ∧
  (cache.map (fun r => r.id)).Nodup

theorem upsertById_wf (cache : List ExchangeRateEntity) (row : ExchangeRateEntity)
    (hid : row.id = rateKeyOf row.from_currency row.to_currency row.date)
    (hwf : WfRateCache cache) : WfRateCache (upsertById cache row) := by
  obtain ⟨hkeys, hnd⟩ := hwf
  unfold upsertById
  by_cases hany : cache.any (fun r => r.id = row.id)
  · rw [if_pos hany]
    constructor
    · intro x hx
      rcases List.mem_map.mp hx with ⟨r, hr, hfr⟩
      by_cases hp : r.id = row.id
      · rw [← hfr, if_pos hp]
        exact hid
      · rw [← hfr, if_neg hp]
        exact hkeys r hr
    · have : (cache.map (fun r => if r.id = row.id then row else r)).map (fun r => r.id)
          = cache.map (fun r => r.id) := by
        rw [List.map_map]
        apply List.map_congr_left
        intro r _
        by_cases hp : r.id = row.id
        · simp [hp]
        · simp [hp]
      rw [this]
      exact hnd
  · rw [if_neg hany]
    constructor
    · intro x hx
      rcases List.mem_append.mp hx with hx | hx
      · exact hkeys x hx
      · rw [List.mem_singleton.mp hx]
        exact hid
    · rw [List.map_append]
      apply List.Nodup.append hnd (by simp)
      intro a ha hb
      simp only [List.map_cons, List.map_nil, List.mem_singleton] at hb
      subst hb
      rcases List.mem_map.mp ha with ⟨r, hr, hfr⟩
      have : ¬(r.id = row.id) := by
        intro hc
        rw [List.any_eq_true] at hany
        exact hany ⟨r, hr, by simp [hc]⟩
      exact this hfr

theorem mem_upsertById (cache : List ExchangeRateEntity) (row : ExchangeRateEntity) :
    row ∈ upsertById cache row := by
  unfold upsertById
  by_cases hany : cache.any (fun r => r.id = row.id)
  · rw [if_pos hany]
    rw [List.any_eq_true] at hany
    rcases hany with ⟨r, hr, hid⟩
    simp only [decide_eq_true_eq] at hid
    exact List.mem_map.mpr ⟨r, hr, by rw [if_pos hid]⟩
  · rw [if_neg hany]
    exact List.mem_append_right _ (List.mem_singleton.mpr rfl)

theorem length_filter_le_one_of_key (l : List ExchangeRateEntity)
    (hn : (l.map (fun r => r.id)).Nodup) (P : ExchangeRateEntity → Bool) (c : String)
    (hP : ∀ x ∈ l, P x = true → x.id = c) :
    (l.filter P).length ≤ 1 := by
  induction l with
  | nil => simp
  | cons x rest ih =>
    simp only [List.map_cons, List.nodup_cons] at hn
    by_cases hx : P x
    · rw [List.filter_cons_of_pos hx]
      have hrest : rest.filter P = [] := by
        rw [List.filter_eq_nil_iff]
        intro y hy hPy
        have hyc : y.id = c := hP y (List.mem_cons_of_mem _ hy) hPy
        have hxc : x.id = c := hP x (List.mem_cons_self _ _) hx
        exact hn.1 (List.mem_map.mpr ⟨y, hy, by rw [hyc, hxc]⟩)
      rw [hrest]
      simp
    · rw [List.filter_cons_of_neg hx]
      exact ih hn.2 (fun y hy => hP y (List.mem_cons_of_mem _ hy))

theorem wf_filter_triple_le_one (cache : List ExchangeRateEntity)
    (hwf : WfRateCache cache) (f t d : String) :
    (cache.filter (rowMatches f t d)).length ≤ 1 := by
  apply length_filter_le_one_of_key cache hwf.2 _ (rateKeyOf f t d)
  intro x hx hPx
  simp only [rowMatches, Bool.and_eq_true, decide_eq_true_eq] at hPx
  rw [hwf.1 x hx, hPx.1.1, hPx.1.2, hPx.2]

theorem cacheRate_wf (cache : List ExchangeRateEntity) (d : ExchangeRateData)
    (ts : Int) (hwf : WfRateCache cache) : WfRateCache (cacheRate cache d ts) :=
  upsertById_wf cache (mkRateRowOf d ts) rfl hwf

theorem cacheProviderRows_wf (rows : List ExchangeRateData) :
    ∀ (ts : Int) (acc : List ExchangeRateEntity × List RateEvent),
      WfRateCache acc.1 → WfRateCache (cacheProviderRows ts acc rows).1 := by
  induction rows with
  | nil => intro ts acc h; exact h
  | cons r rest ih =>
    intro ts acc h
    unfold cacheProviderRows
    rw [List.foldl_cons]
    exact ih ts _ (cacheRate_wf _ _ _ h)

theorem fetchProviderStep_wf (ts : Int) (base : String) (targets : List String)
    (acc : List ExchangeRateEntity × List RateEvent) (p : RateProvider)
    (h : WfRateCache acc.1) :
    WfRateCache (fetchProviderStep ts base targets acc p).1 := by
  unfold fetchProviderStep
  match p.fetchRates base targets with
  | none => exact h
  | some rows => exact cacheProviderRows_wf rows ts _ h

theorem fetchProviders_foldl_wf (ps : List RateProvider) (ts : Int)
    (base : String) (targets : List String) :
    ∀ (acc : List ExchangeRateEntity × List RateEvent), WfRateCache acc.1 →
      WfRateCache (ps.foldl (fetchProviderStep ts base targets) acc).1 := by
  induction ps with
  | nil => intro acc h; exact h
  | cons p rest ih =>
    intro acc h
    rw [List.foldl_cons]
    exact ih _ (fetchProviderStep_wf ts base targets acc p h)

theorem fetchAndCacheRates_wf (now : Int) (s : RateServiceState)
    (base : String) (targets : List String) (h : WfRateCache s.cache) :
    WfRateCache (fetchAndCacheRates now s base targets).1.cache := by
  unfold fetchAndCacheRates
  by_cases hp : s.providers.isEmpty <;>
    simp only [hp, if_true, if_false] <;>
    exact fetchProviders_foldl_wf _ now base targets (_, []) h

/-- A write operation against the cache: a direct `cacheRate`, a
`fetchAndCacheRates` batch, or an `addManualRate`. -/
inductive RateWriteOp where
  | cacheOp (d : ExchangeRateData) (fallbackTs : Int)
  | fetchOp (now : Int) (base : String) (targets : List String)
  | manualOp (now : Int) (today : String) (fromCurrency toCurrency : String)
      (rate : Rat) (dateArg : Option String)

def applyRateWriteOp (s : RateServiceState) : RateWriteOp → RateServiceState
  | .cacheOp d ts => { s with cache := cacheRate s.cache d (d.timestamp.getD ts) }
  | .fetchOp now base targets => (fetchAndCacheRates now s base targets).1
  | .manualOp now today f t r dateArg => (addManualRate now today s f t r dateArg).1

theorem applyRateWriteOp_wf (s : RateServiceState) (op : RateWriteOp)
    (h : WfRateCache s.cache) : WfRateCache (applyRateWriteOp s op).cache := by
  match op with
  | .cacheOp d ts => exact cacheRate_wf _ _ _ h
  | .fetchOp now base targets => exact fetchAndCacheRates_wf now s base targets h
  | .manualOp now today f t r dateArg => exact cacheRate_wf _ _ _ h

theorem foldl_rateWriteOps_wf (ops : List RateWriteOp) :
    ∀ (s : RateServiceState), WfRateCache s.cache →
      WfRateCache (ops.foldl applyRateWriteOp s).cache := by
  induction ops with
  | nil => intro s h; exact h
  | cons op rest ih =>
    intro s h
    rw [List.foldl_cons]
    exact ih _ (applyRateWriteOp_wf s op h)

theorem eq_singleton_of_length_le_one {α : Type} (l : List α) (x : α)
    (hlen : l.length ≤ 1) (hx : x ∈ l) : l = [x] := by
  match l with
  | [] => exact absurd hx (List.not_mem_nil x)
  | [a] => rw [List.mem_singleton.mp hx]
  | a :: b :: rest => simp at hlen

/-- C8: after any sequence of `cacheRate` / `fetchAndCacheRates` /
`addManualRate` writes, the cache holds at most one row per
`(from_currency, to_currency, date)` triple; every write for a triple uses the
deterministic id `from-to-date`, and two successive writes for the same triple
leave exactly one row for it, carrying the second write's rate, timestamp and
source. -/
theorem exchange_rate_cache_at_most_one_row (s₀ : RateServiceState)
    (ops : List RateWriteOp) (hwf : WfRateCache s₀.cache) :
    (∀ f t d,
      (((ops.foldl applyRateWriteOp s₀).cache).filter (rowMatches f t d)).length ≤ 1) ∧
    (∀ d ts, (mkRateRowOf d ts).id
        = rateKeyOf d.from_currency d.to_currency d.date) ∧
    (∀ (cache : List ExchangeRateEntity) (d₁ d₂ : ExchangeRateData) (ts₁ ts₂ : Int),
      WfRateCache cache →
      d₁.from_currency = d₂.from_currency → d₁.to_currency = d₂.to_currency →
      d₁.date = d₂.date →
      (cacheRate (cacheRate cache d₁ ts₁) d₂ ts₂).filter
          (rowMatches d₂.from_currency d₂.to_currency d₂.date)
        = [mkRateRowOf d₂ ts₂]) := by
  refine ⟨?_, fun _ _ => rfl, ?_⟩
  · intro f t d
    exact wf_filter_triple_le_one _ (foldl_rateWriteOps_wf ops s₀ hwf) f t d
  · intro cache d₁ d₂ ts₁ ts₂ hc hf ht hd
    have hwf2 : WfRateCache (cacheRate (cacheRate cache d₁ ts₁) d₂ ts₂) :=
      cacheRate_wf _ _ _ (cacheRate_wf _ _ _ hc)
    have hmem : mkRateRowOf d₂ ts₂ ∈ cacheRate (cacheRate cache d₁ ts₁) d₂ ts₂ :=
      mem_upsertById _ _
    have hmatch : rowMatches d₂.from_currency d₂.to_currency d₂.date
        (mkRateRowOf d₂ ts₂) = true := by
      simp [rowMatches, mkRateRowOf]
    have hmemf : mkRateRowOf d₂ ts₂ ∈
        (cacheRate (cacheRate cache d₁ ts₁) d₂ ts₂).filter
          (rowMatches d₂.from_currency d₂.to_currency d₂.date) :=
      List.mem_filter.mpr ⟨hmem, hmatch⟩
    exact eq_singleton_of_length_le_one _ _
      (wf_filter_triple_le_one _ hwf2 _ _ _) hmemf

/-- Witness for the C8 theorem: two writes for the same `(BTC, USD, date)` key
starting from an empty cache leave exactly the second row. -/
theorem exchange_rate_cache_at_most_one_row_witness :
    WfRateCache (⟨[], [], false, false, []⟩ : RateServiceState).cache ∧
    (cacheRate (cacheRate []
        (⟨"BTC", "USD", 3, "2024-06-01", "api", some 1⟩ : ExchangeRateData) 1)
        (⟨"BTC", "USD", 4, "2024-06-01", "manual", some 2⟩ : ExchangeRateData) 2).filter
      (rowMatches "BTC" "USD" "2024-06-01")
      = [mkRateRowOf (⟨"BTC", "USD", 4, "2024-06-01", "manual", some 2⟩ : ExchangeRateData) 2] :=
  ⟨⟨fun row h => absurd h (List.not_mem_nil row), List.nodup_nil⟩,
   (exchange_rate_cache_at_most_one_row ⟨[], [], false, false, []⟩ []
     ⟨fun row h => absurd h (List.not_mem_nil row), List.nodup_nil⟩).2.2
     [] ⟨"BTC", "USD", 3, "2024-06-01", "api", some 1⟩
     ⟨"BTC", "USD", 4, "2024-06-01", "manual", some 2⟩ 1 2
     ⟨fun row h => absurd h (List.not_mem_nil row), List.nodup_nil⟩
     rfl rfl rfl⟩

/-! ## Calendar dates and the recurrence resolver -/

/-- A calendar date `YYYY-MM-DD`. -/
structure SDate where
  y : Nat
  m : Nat
  d : Nat
deriving DecidableEq, Repr

/-- Strict chronological (lexicographic) order. -/
def SDate.ltb (a b : SDate) : Bool :=
  if a.y ≠ b.y then decide (a.y < b.y)
  else if a.m ≠ b.m then decide (a.m < b.m)
  else decide (a.d < b.d)

def SDate.leb (a b : SDate) : Bool :=
  SDate.ltb a b || decide (a = b)

def splitDashAux : List Char → List Char → List (List Char)
  | [], acc => [acc.reverse]
  | c :: rest, acc =>
    if c = '-' then acc.reverse :: splitDashAux rest []
    else splitDashAux rest (c :: acc)

def digitToNat? (c : Char) : Option Nat :=
  if 48 ≤ c.toNat && c.toNat ≤ 57 then some (c.toNat - 48) else none

def digitsToNatAux : List Char → Nat → Option Nat
  | [], acc => some acc
  | c :: rest, acc =>
    match digitToNat? c with
    | some v => digitsToNatAux rest (acc * 10 + v)
    | none => none

def digitsToNat? : List Char → Option Nat
  | [] => none
  | l => digitsToNatAux l 0

/-- Parse an ISO `YYYY-MM-DD` string. -/
def parseISO (s : String) : Option SDate :=
  match splitDashAux s.data [] with
  | [ys, ms, ds] =>
    match digitsToNat? ys, digitsToNat? ms, digitsToNat? ds with
    | some y, some m, some d => some ⟨y, m, d⟩
    | _, _, _ => none
  | _ => none

def natDigits : Nat → Nat → List Char
  | 0, _ => []
  | fuel + 1, n =>
    if n < 10 then [Char.ofNat (48 + n)]
    else natDigits fuel (n / 10) ++ [Char.ofNat (48 + n % 10)]

def pad2 (n : Nat) : List Char :=
  if n < 10 then '0' :: natDigits 20 n else natDigits 20 n

def isoOfDate (dt : SDate) : String :=
  String.mk (natDigits 20 dt.y ++ '-' :: pad2 dt.m ++ '-' :: pad2 dt.d)

def isLeapYear (y : Nat) : Bool :=
  (y % 4 = 0 && y % 100 ≠ 0) || y % 400 = 0

def daysInMonth (y m : Nat) : Nat :=
  if m = 2 then (if isLeapYear y then 29 else 28)
  else if m = 4 ∨ m = 6 ∨ m = 9 ∨ m = 11 then 30
  else 31

/-- First pattern occurrence in month `(y, m)` that is at or after `startD` and
strictly after `after`, scanning days in chronological order. -/
def nextOccurrenceInMonth (y m : Nat) (pats : List Int) (startD after : SDate) :
    Option SDate :=
  (List.range 32).findSome? (fun (day : Nat) =>
    if pats.any (fun p => p = Int.ofNat day) && 1 ≤ day && day ≤ daysInMonth y m then
      let cand : SDate := ⟨y, m, day⟩
      if SDate.leb startD cand && SDate.ltb after cand then some cand else none
    else none)

/-- Scan months from the recurrence start onwards for the first occurrence
strictly after `after` (fuel covers every month up to a few past `after`). -/
def getNextDateRec (start after : SDate) (pats : List Int) : Option SDate :=
  let startIdx := start.y * 12 + (start.m - 1)
  let afterIdx := after.y * 12 + (after.m - 1)
  let fuel := (afterIdx + 2) - startIdx + 4
  (List.range fuel).findSome? (fun k =>
    let idx := startIdx + k
    nextOccurrenceInMonth (idx / 12) (idx % 12 + 1) pats start after)

/-- Modelled from the spec: `getNextDate` of `shared/schedules.ts` is not under
src/ (only its callers and its tests are).  Spec §4.2: a literal date condition
is returned unchanged; a recurrence descriptor (start date, frequency,
day-of-month patterns, chronological tie-break between patterns) yields the
first occurrence at or after its start that lies strictly after `after`.  Only
the monthly/day-pattern form exercised by the repository is modelled; an empty
pattern list defaults to the start date's day of month. -/
def getNextDate (dateValue : JVal) (after : SDate) : Option SDate :=
  match dateValue with
  | .prim (.jstr s) => parseISO s
  | .recur cfg =>
    match parseISO cfg.start with
    | none => none
    | some start =>
      if cfg.frequency = "monthly" then
        let pats := if cfg.patterns.isEmpty then [(start.d : Int)] else cfg.patterns
        getNextDateRec start after pats
      else none
  | _ => none

/-! ## Schedule engine state (schedules/app.ts) -/

structure RuleRow where
  id : String
  stage : Option String
  conditionsOp : String
  conditions : List Entry
  actions : List Entry
deriving DecidableEq, Repr

structure ScheduleRow where
  id : String
  name : Option String
  postsTransaction : Bool
  completed : Bool
  ruleId : String
  tombstone : Bool
deriving DecidableEq, Repr

/-- A `schedules_next_date` row (keyed by schedule id; the table's own surrogate
id is immaterial since each schedule has exactly one row). -/
structure NextDateRow where
  scheduleId : String
  localNextDate : Option SDate
  localNextDateTs : Int
  baseNextDate : Option SDate
  baseNextDateTs : Int
deriving DecidableEq, Repr

/-- The budget store visible to the schedule engine, plus a fresh-id counter
standing in for the `uuidv4()` supply. -/
structure SchedDB where
  schedules : List ScheduleRow
  rules : List RuleRow
  nextDates : List NextDateRow
  payees : List NamedItem
  accounts : List NamedItem
  categories : List CatItem
  nextGen : Nat
deriving DecidableEq, Repr

/-- Fresh-id supply standing in for `uuidv4()`: injective into strings. -/
def genId (n : Nat) : String := String.mk ('u' :: List.replicate n 'u')

theorem genId_injective : ∀ {a b : Nat}, genId a = genId b → a = b := by
  intro a b h
  have hdata : 'u' :: List.replicate a 'u' = 'u' :: List.replicate b 'u' := by
    have hd := congrArg String.data h
    simpa [genId] using hd
  have hlen := congrArg List.length hdata
  simpa using hlen

def SchedDB.findSchedule (db : SchedDB) (sid : String) : Option ScheduleRow :=
  db.schedules.find? (fun s => s.id = sid)

def SchedDB.findRule (db : SchedDB) (rid : String) : Option RuleRow :=
  db.rules.find? (fun r => r.id = rid)

def SchedDB.findNextDate (db : SchedDB) (sid : String) : Option NextDateRow :=
  db.nextDates.find? (fun nd => nd.scheduleId = sid)

/-- `getCanonicalRuleField` (app.ts:96). -/
def getCanonicalRuleField (field : String) : String :=
  if field = "acct" then "account"
  else if field = "description" then "payee"
  else field

def condFieldIs (fld : String) (e : Entry) : Bool :=
  match e.getStr "field" with
  | some f => getCanonicalRuleField f = fld
  | none => false

structure ScheduleConds where
  payee : Option Entry
  account : Option Entry
  amount : Option Entry
  date : Option Entry
deriving DecidableEq, Repr

/-- Modelled from the spec: `extractScheduleConds` of `shared/schedules.ts` is
not under src/.  Per spec §3/§4.3 it projects the payee/account/amount/date
conditions out of a condition list; modelled as the first condition per
canonical field (`acct`/`description` aliased as in `getCanonicalRuleField`). -/
def extractScheduleConds (conditions : List Entry) : ScheduleConds :=
  { payee := conditions.find? (condFieldIs "payee")
    account := conditions.find? (condFieldIs "account")
    amount := conditions.find? (condFieldIs "amount")
    date := conditions.find? (condFieldIs "date") }

/-- `updateConditions` (app.ts:503): for each schedule-condition slot (payee,
account, amount, date), a condition present in both lists is replaced at the
position of the old one (reference identity realised as the found index); a
condition present only in the new list is appended, in slot order. -/
def updateConditions (conditions newConditions : List Entry) : List Entry :=
  let oldConds := extractScheduleConds conditions
  let newConds := extractScheduleConds newConditions
  let idxOf : String → Option Nat := fun fld => conditions.findIdx? (condFieldIs fld)
  let updated := conditions.enum.map (fun ic =>
    if idxOf "payee" = some ic.1 then (newConds.payee.getD ic.2)
    else if idxOf "account" = some ic.1 then (newConds.account.getD ic.2)
    else if idxOf "amount" = some ic.1 then (newConds.amount.getD ic.2)
    else if idxOf "date" = some ic.1 then (newConds.date.getD ic.2)
    else ic.2)
  let added :=
    (match oldConds.payee, newConds.payee with
      | none, some c => [c] | _, _ => []) ++
    (match oldConds.account, newConds.account with
      | none, some c => [c] | _, _ => []) ++
    (match oldConds.amount, newConds.amount with
      | none, some c => [c] | _, _ => []) ++
    (match oldConds.date, newConds.date with
      | none, some c => [c] | _, _ => [])
  updated ++ added

/-- `getRuleForSchedule` (app.ts:524): the schedule's `rule` foreign key,
resolved against the loaded rules (`undefined` when missing/corrupted). -/
def getRuleForScheduleM (db : SchedDB) (sid : String) : Option RuleRow :=
  match db.findSchedule sid with
  | none => none
  | some srow => db.findRule srow.ruleId

def linkScheduleAction (sid : String) : Entry :=
  Entry.node [("op", .prim (.jstr "link-schedule")), ("value", .prim (.jstr sid))]

/-- `fixRuleForSchedule` (app.ts:535): drop the broken rule, synthesize an
approximate-date/zero-amount rule with the required link action, re-link. -/
def fixRuleForSchedule (now : SDate) (db : SchedDB) (sid : String) :
    SchedDB × RuleRow :=
  let ruleId := (db.findSchedule sid).map (fun s => s.ruleId)
  let db1 := match ruleId with
    | some rid => { db with rules := db.rules.filter (fun r => r.id ≠ rid) }
    | none => db
  let newId := genId db1.nextGen
  let newRule : RuleRow :=
    { id := newId, stage := none, conditionsOp := "and"
      conditions := [
        Entry.node [("op", .prim (.jstr "isapprox")), ("field", .prim (.jstr "date")),
                    ("value", .prim (.jstr (isoOfDate now)))],
        Entry.node [("op", .prim (.jstr "isapprox")), ("field", .prim (.jstr "amount")),
                    ("value", .prim (.jnum 0))]]
      actions := [linkScheduleAction sid] }
  ({ db1 with
      rules := db1.rules ++ [newRule]
      nextGen := db1.nextGen + 1
      schedules := db1.schedules.map (fun s =>
        if s.id = sid then { s with ruleId := newId } else s) },
   newRule)

/-- Modelled from the spec: the `next_date` column exposed by the schedules
view is assembled outside src/; spec §3 stores local/base variants with
timestamps for merge purposes — the local variant wins when at least as new. -/
def currentNextDate (db : SchedDB) (sid : String) : Option SDate :=
  match db.findNextDate sid with
  | none => none
  | some nd =>
    if nd.baseNextDateTs ≤ nd.localNextDateTs then nd.localNextDate
    else nd.baseNextDate

/-- `setNextDate` (app.ts:561).  `start = none` means the wall-clock default
`new Date()` (here `now`); `reset` selects the base variant. -/
def setNextDate (now : SDate) (nowMs : Int) (db : SchedDB) (sid : String)
    (start : Option (Option SDate → SDate)) (conditionsArg : Option (List Entry))
    (reset : Bool) : SchedDB × Except String Unit :=
  let conditionsRes : Except String (List Entry) :=
    match conditionsArg with
    | some cs => .ok cs
    | none =>
      match getRuleForScheduleM db sid with
      | none => .error "No rule found for schedule"
      | some r => .ok r.conditions
  match conditionsRes with
  | .error e => (db, .error e)
  | .ok conditions =>
    match (extractScheduleConds conditions).date with
    | none => (db, .ok ())
    | some dc =>
      let nextDate := currentNextDate db sid
      let afterDate := match start with
        | some f => f nextDate
        | none => now
      let newNextDate := getNextDate ((dc.get "value").getD (.prim .null)) afterDate
      if newNextDate ≠ nextDate then
        match db.findNextDate sid with
        | none => (db, .error "No schedules_next_date row for schedule")
        | some nd =>
          let nd' := if reset
            then { nd with baseNextDate := newNextDate, baseNextDateTs := nowMs }
            else { nd with localNextDate := newNextDate,
                           localNextDateTs := nd.baseNextDateTs }
          ({ db with nextDates := db.nextDates.map (fun x =>
              if x.scheduleId = sid then nd' else x) }, .ok ())
      else (db, .ok ())

/-- `checkIfScheduleExists` (app.ts:623): an active schedule other than
`scheduleId` already bears the exact name. -/
def checkIfScheduleExists (db : SchedDB) (name : String) (scheduleId : String) :
    Bool :=
  match db.schedules.find? (fun s => !s.tombstone && s.name == some name) with
  | none => false
  | some row => row.id ≠ scheduleId

/-- The `schedule` argument of `createSchedule`. -/
structure SchedulePayload where
  id : Option String
  name : Option String
  postsTransaction : Bool
  completed : Bool
deriving DecidableEq, Repr

/-- JS truthiness of `schedule.name`. -/
def nameTruthy : Option SchedulePayload → Bool
  | some sp => match sp.name with
    | some s => s ≠ ""
    | none => false
  | none => false

/-- `createSchedule` (app.ts:638).  The mutated store is returned alongside the
result so that a thrown error's partial effects stay observable; the date
checks and the duplicate-name check all throw before any row is inserted. -/
def createSchedule (now : SDate) (nowMs : Int) (db : SchedDB)
    (schedule : Option SchedulePayload) (conditions : List Entry) :
    SchedDB × Except String String :=
  let suppliedId := schedule.bind (fun s => s.id)
  let scheduleId := match suppliedId with
    | some i => i
    | none => genId db.nextGen
  let db0 := if suppliedId.isSome then db else { db with nextGen := db.nextGen + 1 }
  match (extractScheduleConds conditions).date with
  | none => (db0, .error "A date condition is required to create a schedule")
  | some dateCond =>
    if dateCond.get "value" = none ∨ dateCond.get "value" = some (.prim .null) then
      (db0, .error "Date is required")
    else
      let nextDate := getNextDate ((dateCond.get "value").getD (.prim .null)) now
      if nameTruthy schedule &&
          checkIfScheduleExists db0 ((schedule.bind (fun s => s.name)).getD "") scheduleId then
        (db0, .error "Cannot create schedules with the same name")
      else
        let ruleId := genId db0.nextGen
        let rule : RuleRow :=
          { id := ruleId, stage := none, conditionsOp := "and"
            conditions := conditions
            actions := [linkScheduleAction scheduleId] }
        let ndRow : NextDateRow := ⟨scheduleId, nextDate, nowMs, nextDate, nowMs⟩
        let srow : ScheduleRow :=
          { id := scheduleId
            name := if nameTruthy schedule then schedule.bind (fun s => s.name) else none
            postsTransaction := (schedule.map (fun s => s.postsTransaction)).getD false
            completed := (schedule.map (fun s => s.completed)).getD false
            ruleId := ruleId
            tombstone := false }
        ({ db0 with
            nextGen := db0.nextGen + 1
            rules := db0.rules ++ [rule]
            nextDates := db0.nextDates ++ [ndRow]
            schedules := db0.schedules ++ [srow] },
         .ok scheduleId)

/-- A partial rule update; `none` fields are absent from the patch. -/
structure RulePatch where
  stage : Option JPrim
  conditionsOp : Option JPrim
  conditions : Option (List Entry)
  actions : Option (List Entry)
deriving Repr

def stageOk : Option JPrim → Bool
  | none => true
  | some .null => true
  | some (.jstr s) => s = "pre" || s = "post"
  | some _ => false

/-- Modelled from the spec: `updateRule` of transactions/transaction-rules.ts is
not under src/ (only its callers and the schedules tests are).  It validates and
persists a partial rule update; the repository's schedule tests show that an
invalid `stage` makes the update fail, valid stages being `pre`, `post` and
null, and that on failure nothing is persisted. -/
def updateRule (db : SchedDB) (ruleId : String) (patch : RulePatch) :
    SchedDB × Except String Unit :=
  if !stageOk patch.stage then (db, .error "Invalid rule stage")
  else
    match db.findRule ruleId with
    | none => (db, .error "Rule not found")
    | some r =>
      let r' : RuleRow :=
        { r with
          stage := match patch.stage with
            | some (.jstr s) => some s
            | some _ => none
            | none => r.stage
          conditionsOp := match patch.conditionsOp with
            | some (.jstr s) => s
            | some _ => r.conditionsOp
            | none => r.conditionsOp
          conditions := patch.conditions.getD r.conditions
          actions := patch.actions.getD r.actions }
      ({ db with rules := db.rules.map (fun x => if x.id = ruleId then r' else x) },
       .ok ())

/-- `stripType` (app.ts:735): drop the sometimes-present `type` tag
(`(... || {})` turns a missing condition into an empty object). -/
def stripType : Option Entry → Entry
  | some e => e.remove ["type"]
  | none => Entry.node []

/-- The `next_date` reset condition of `updateSchedule` (app.ts:741-751),
translated exactly as written — note that the account comparison compares
`oldConditions` against `oldConditions`. -/
def shouldResetNextDate (resetNextDate : Bool)
    (oldConditions newConditions : List Entry) : Bool :=
  resetNextDate
  || !(decide ((oldConditions.find? (fun c => c.getStr "field" == some "account"))
        = (oldConditions.find? (fun c => c.getStr "field" == some "account"))))
  || !(decide (stripType (oldConditions.find? (fun c => c.getStr "field" == some "date"))
        = stripType (newConditions.find? (fun c => c.getStr "field" == some "date"))))

/-- The `schedule` argument of `updateSchedule`: the id plus the row fields the
caller wants to patch; `rule` present means the forbidden linkage change. -/
structure UpdatePayload where
  id : String
  rule : Option String
  name : Option (Option String)
  postsTransaction : Option Bool
  completed : Option Bool
deriving DecidableEq, Repr

def applySchedulePatch (row : ScheduleRow) (p : UpdatePayload) : ScheduleRow :=
  { row with
    name := p.name.getD row.name
    postsTransaction := p.postsTransaction.getD row.postsTransaction
    completed := p.completed.getD row.completed }

def SchedDB.patchSchedule (db : SchedDB) (p : UpdatePayload) : SchedDB :=
  { db with schedules := db.schedules.map (fun s =>
      if s.id = p.id then applySchedulePatch s p else s) }

/-- `updateSchedule` (app.ts:692). -/
def updateSchedule (now : SDate) (nowMs : Int) (db : SchedDB)
    (schedule : UpdatePayload) (conditions : Option (List Entry))
    (resetNextDate : Bool) : SchedDB × Except String String :=
  if schedule.rule.isSome then
    (db, .error "You cannot change the rule of a schedule")
  else
    match conditions with
    | some conds =>
      let dateNull : Bool := match (extractScheduleConds conds).date with
        | some dc => dc.get "value" = none || dc.get "value" = some (.prim .null)
        | none => false
      if dateNull then (db, .error "Date is required")
      else
        let (db1, rule) := match getRuleForScheduleM db schedule.id with
          | some r => (db, r)
          | none => fixRuleForSchedule now db schedule.id
        let oldConditions := rule.conditions
        let newConditions := updateConditions oldConditions conds
        match updateRule db1 rule.id ⟨none, none, some newConditions, none⟩ with
        | (db2, .error e) => (db2, .error e)
        | (db2, .ok ()) =>
          let sndRes :=
            if shouldResetNextDate resetNextDate oldConditions newConditions then
              setNextDate now nowMs db2 schedule.id none (some newConditions) true
            else (db2, .ok ())
          match sndRes with
          | (db3, .error e) => (db3, .error e)
          | (db3, .ok ()) => (db3.patchSchedule schedule, .ok schedule.id)
    | none =>
      if resetNextDate then
        match setNextDate now nowMs db schedule.id none none true with
        | (db1, .error e) => (db1, .error e)
        | (db1, .ok ()) => (db1.patchSchedule schedule, .ok schedule.id)
      else
        (db.patchSchedule schedule, .ok schedule.id)

/-- `deleteSchedule` (app.ts:768): delete the linked rule and the schedule. -/
def deleteSchedule (db : SchedDB) (sid : String) : SchedDB :=
  let ruleId := (db.findSchedule sid).map (fun s => s.ruleId)
  let db1 := match ruleId with
    | some rid => { db with rules := db.rules.filter (fun r => r.id ≠ rid) }
    | none => db
  { db1 with schedules := db1.schedules.filter (fun s => s.id ≠ sid) }

/-- The `_date` projection of a schedule: the value of its rule's date
condition (spec §3: derived condition projection). -/
def scheduleDateValue (db : SchedDB) (sid : String) : Option JVal :=
  ((getRuleForScheduleM db sid).bind
    (fun r => (extractScheduleConds r.conditions).date)).bind
    (fun dc => dc.get "value")

/-- Truthiness of `schedule._date.frequency`. -/
def isRecurringValue : JVal → Bool
  | .recur cfg => cfg.frequency ≠ ""
  | _ => false

/-- The `status === 'paid'` branch of the `advanceSchedulesService` loop
(app.ts:1154-1171): a recurring schedule advances its `next_date` via
`setNextDate({ id })` — no `start`, no `reset` — with errors swallowed; a
non-recurring schedule whose date is past is marked completed. -/
def advancePaidSchedule (now : SDate) (nowMs : Int) (db : SchedDB) (sid : String) :
    SchedDB :=
  match scheduleDateValue db sid with
  | none => db
  | some v =>
    if isRecurringValue v then
      (setNextDate now nowMs db sid none none false).1
    else
      match v with
      | .prim (.jstr s) =>
        match parseISO s with
        | some dt =>
          if SDate.ltb dt now then
            (updateSchedule now nowMs db ⟨sid, none, none, none, some true⟩ none false).1
          else db
        | none => db
      | _ => db

/-- The recurring date condition used by the C1 theorems. -/
def c1date : Entry := Entry.node [("op", .prim (.jstr "is")), ("field", .prim (.jstr "date")),
  ("value", .recur ⟨"2020-12-20", "monthly", [15, 30]⟩)]

/-- A store with one recurring schedule whose `next_date` is 2020-12-30. -/
def c1db : SchedDB :=
  { schedules := [⟨"s1", none, false, false, "r1", false⟩]
    rules := [⟨"r1", none, "and", [c1date], [linkScheduleAction "s1"]⟩]
    nextDates := [⟨"s1", some ⟨2020,12,30⟩, 100, some ⟨2020,12,30⟩, 100⟩]
    payees := [], accounts := [], categories := [], nextGen := 0 }

/-- C1 counterexample: for a paid recurring schedule (monthly on the 15th/30th,
`next_date` 2020-12-30) the claim demands an advance to 2021-01-15 — the first
occurrence strictly after the previous `next_date`, independent of the clock —
but with wall-clock 2021-05-17 the code advances to 2021-05-30, and with
wall-clock 2021-06-01 to 2021-06-15: the advance tracks `now` and skips the
intermediate occurrences. -/
theorem advancePaidSchedule_wall_clock_counterexample :
    getNextDate (.recur ⟨"2020-12-20", "monthly", [15, 30]⟩) ⟨2020,12,30⟩
      = some ⟨2021,1,15⟩ ∧
    currentNextDate c1db "s1" = some ⟨2020,12,30⟩ ∧
    currentNextDate (advancePaidSchedule ⟨2021,5,17⟩ 999 c1db "s1") "s1"
      = some ⟨2021,5,30⟩ ∧
    currentNextDate (advancePaidSchedule ⟨2021,6,1⟩ 999 c1db "s1") "s1"
      = some ⟨2021,6,15⟩ ∧
    (some (⟨2021,5,30⟩ : SDate) ≠ some (⟨2021,1,15⟩ : SDate)) := by
  decide

/-- C1 (amended): when `advanceSchedulesService` classifies a recurring schedule
as paid, `setNextDate({id})` advances the schedule's local `next_date` to the
first occurrence of its date condition strictly after the current wall-clock
date `now` (not after the previous `next_date`), stamping it with the base
timestamp and leaving the base variant and all other rows untouched; occurrences
between the old `next_date` and `now` are therefore skipped. -/
theorem advancePaidSchedule_advances_after_wall_clock
    (now : SDate) (nowMs : Int) (db : SchedDB) (sid : String)
    (rule : RuleRow) (dc : Entry) (v : JVal) (nd : NextDateRow) (newND : SDate)
    (hrule : getRuleForScheduleM db sid = some rule)
    (hdc : (extractScheduleConds rule.conditions).date = some dc)
    (hv : dc.get "value" = some v)
    (hrec : isRecurringValue v = true)
    (hnd : db.findNextDate sid = some nd)
    (hnew : getNextDate v now = some newND)
    (hne : some newND ≠ currentNextDate db sid) :
    advancePaidSchedule now nowMs db sid =
      { db with nextDates := db.nextDates.map (fun x =>
          if x.scheduleId = sid then
            { nd with localNextDate := some newND,
                      localNextDateTs := nd.baseNextDateTs }
          else x) } := by
  have h1 : scheduleDateValue db sid = some v := by
    simp [scheduleDateValue, hrule, hdc, hv]
  simp only [advancePaidSchedule, h1, hrec, if_true]
  simp [setNextDate, hrule, hdc, hv, hnew, hnd, hne]

/-- Witness for the amended C1 theorem at the counterexample store. -/
theorem advancePaidSchedule_advances_after_wall_clock_witness :
    getRuleForScheduleM c1db "s1"
      = some ⟨"r1", none, "and", [c1date], [linkScheduleAction "s1"]⟩ ∧
    getNextDate (.recur ⟨"2020-12-20", "monthly", [15, 30]⟩) ⟨2021,5,17⟩
      = some ⟨2021,5,30⟩ ∧
    advancePaidSchedule ⟨2021,5,17⟩ 999 c1db "s1" =
      { c1db with nextDates := c1db.nextDates.map (fun x =>
          if x.scheduleId = "s1" then
            { (⟨"s1", some ⟨2020,12,30⟩, 100, some ⟨2020,12,30⟩, 100⟩ : NextDateRow) with
                localNextDate := some ⟨2021,5,30⟩,
                localNextDateTs := (100 : Int) }
          else x) } :=
  ⟨by decide, by decide,
   advancePaidSchedule_advances_after_wall_clock ⟨2021,5,17⟩ 999 c1db "s1"
     ⟨"r1", none, "and", [c1date], [linkScheduleAction "s1"]⟩ c1date
     (.recur ⟨"2020-12-20", "monthly", [15, 30]⟩)
     ⟨"s1", some ⟨2020,12,30⟩, 100, some ⟨2020,12,30⟩, 100⟩ ⟨2021,5,30⟩
     (by decide) (by decide) (by decide) (by decide) (by decide) (by decide)
     (by decide)⟩

/-- The old account condition of the C2 store. -/
def c2accA : Entry := Entry.node [("op", .prim (.jstr "is")),
  ("field", .prim (.jstr "account")), ("value", .prim (.jstr "acct-A"))]

/-- The changed account condition submitted in the C2 update. -/
def c2accB : Entry := Entry.node [("op", .prim (.jstr "is")),
  ("field", .prim (.jstr "account")), ("value", .prim (.jstr "acct-B"))]

def c2date : Entry := Entry.node [("op", .prim (.jstr "is")),
  ("field", .prim (.jstr "date")), ("value", .prim (.jstr "2021-03-01"))]

/-- A store with one schedule on account `acct-A`. -/
def c2db : SchedDB :=
  { schedules := [⟨"s1", none, false, false, "r1", false⟩]
    rules := [⟨"r1", none, "and", [c2accA, c2date], [linkScheduleAction "s1"]⟩]
    nextDates := [⟨"s1", some ⟨2021,3,1⟩, 100, some ⟨2021,3,1⟩, 100⟩]
    payees := [], accounts := [], categories := [], nextGen := 0 }

/-- C2: `updateSchedule` with a changed account condition (`acct-A` → `acct-B`),
`resetNextDate` false and the date condition unchanged persists the new account
into the rule but leaves the `next_date` rows untouched, because the reset
guard at app.ts:743-746 compares the old conditions' account condition against
itself — contradicting the adjacent comment ("we check account because … the
user might switch accounts from a closed one"). -/
theorem updateSchedule_account_change_keeps_next_date :
    (updateSchedule ⟨2021,1,1⟩ 500 c2db ⟨"s1", none, none, none, none⟩
        (some [c2accB]) false).2 = .ok "s1" ∧
    ((updateSchedule ⟨2021,1,1⟩ 500 c2db ⟨"s1", none, none, none, none⟩
        (some [c2accB]) false).1.findRule "r1").map (fun r => r.conditions)
      = some [c2accB, c2date] ∧
    (updateSchedule ⟨2021,1,1⟩ 500 c2db ⟨"s1", none, none, none, none⟩
        (some [c2accB]) false).1.nextDates = c2db.nextDates ∧
    shouldResetNextDate false [c2accA, c2date] [c2accB, c2date] = false ∧
    c2accA ≠ c2accB := by
  decide

/-- C5: `createSchedule` fails with "A date condition is required to create a
schedule" when the conditions contain no date condition, and with "Date is
required" when the date condition's value is null (or absent); in both failing
cases no schedule row, no rule row, no next-date row and no payee is created —
only the uuid supply may have been consumed. -/
theorem createSchedule_requires_date (now : SDate) (nowMs : Int) (db : SchedDB)
    (schedule : Option SchedulePayload) (conditions : List Entry) :
    ((extractScheduleConds conditions).date = none →
      ∃ db', createSchedule now nowMs db schedule conditions
          = (db', .error "A date condition is required to create a schedule") ∧
        db'.schedules = db.schedules ∧ db'.rules = db.rules ∧
        db'.nextDates = db.nextDates ∧ db'.payees = db.payees) ∧
    (∀ dc, (extractScheduleConds conditions).date = some dc →
      (dc.get "value" = none ∨ dc.get "value" = some (.prim .null)) →
      ∃ db', createSchedule now nowMs db schedule conditions
          = (db', .error "Date is required") ∧
        db'.schedules = db.schedules ∧ db'.rules = db.rules ∧
        db'.nextDates = db.nextDates ∧ db'.payees = db.payees) := by
  constructor
  · intro hnone
    refine ⟨if (schedule.bind (fun s => s.id)).isSome then db
        else { db with nextGen := db.nextGen + 1 }, ?_, ?_, ?_, ?_, ?_⟩ <;>
      by_cases h : (schedule.bind (fun s => s.id)).isSome <;>
        simp [createSchedule, hnone, h]
  · intro dc hdc hval
    refine ⟨if (schedule.bind (fun s => s.id)).isSome then db
        else { db with nextGen := db.nextGen + 1 }, ?_, ?_, ?_, ?_, ?_⟩ <;>
      by_cases h : (schedule.bind (fun s => s.id)).isSome <;>
        simp [createSchedule, hdc, hval, h]

/-- Witness for the C5 theorem: creating a schedule with only a payee condition
fails with the date-condition error and leaves the empty store's rows empty. -/
theorem createSchedule_requires_date_witness :
    (extractScheduleConds
        [Entry.node [("op", .prim (.jstr "is")), ("field", .prim (.jstr "payee")),
          ("value", .prim (.jstr "p1"))]]).date = none ∧
    ∃ db', createSchedule ⟨2021,1,1⟩ 0
        (⟨[], [], [], [], [], [], 0⟩ : SchedDB) none
        [Entry.node [("op", .prim (.jstr "is")), ("field", .prim (.jstr "payee")),
          ("value", .prim (.jstr "p1"))]]
        = (db', .error "A date condition is required to create a schedule") ∧
      db'.schedules = ([] : List ScheduleRow) ∧ db'.rules = ([] : List RuleRow) ∧
      db'.nextDates = ([] : List NextDateRow) ∧ db'.payees = ([] : List NamedItem) :=
  ⟨by decide,
   (createSchedule_requires_date ⟨2021,1,1⟩ 0 ⟨[], [], [], [], [], [], 0⟩ none
     [Entry.node [("op", .prim (.jstr "is")), ("field", .prim (.jstr "payee")),
       ("value", .prim (.jstr "p1"))]]).1 (by decide)⟩

/-! ## Schedule import (app.ts `importSchedules` and its helpers) -/

/-- `db.insertPayee` as used by the import path: fresh id, raw name. -/
def insertPayee (db : SchedDB) (name : String) : SchedDB × String :=
  let pid := genId db.nextGen
  ({ db with nextGen := db.nextGen + 1, payees := db.payees ++ [⟨pid, name⟩] }, pid)

/-- The lookup tables `importSchedules` builds once and threads through every
entry (app.ts:920-924); `payeeIdsByName` is mutated as payees are created. -/
structure ImportLookups where
  accountIdsByName : SMap
  accountAmbiguousNames : StrSet
  payeeIdsByName : SMap
  payeeAmbiguousNames : StrSet
  categoryLookup : CategoryLookup
deriving Repr

/-- `mapSingle` of `mapNameValuesToIds` (app.ts:194-207). -/
def mapSingleNameToId (idsByName : SMap) (ambiguousNames : StrSet)
    (entityLabel : String) (name : String) : Except String String :=
  match normalizeName name with
  | none => .ok name
  | some normalized =>
    if setHas ambiguousNames normalized then
      .error (entityLabel ++ " name is ambiguous: " ++ name)
    else
      match mapGet idsByName normalized with
      | some id => .ok id
      | none => .error (entityLabel ++ " not found: " ++ name)

def mapPrimsToIds (idsByName : SMap) (ambiguousNames : StrSet)
    (entityLabel : String) : List JPrim → Except String (List JPrim)
  | [] => .ok []
  | .jstr s :: rest =>
    match mapSingleNameToId idsByName ambiguousNames entityLabel s with
    | .error e => .error e
    | .ok i =>
      match mapPrimsToIds idsByName ambiguousNames entityLabel rest with
      | .error e => .error e
      | .ok rest' => .ok (.jstr i :: rest')
  | p :: rest =>
    match mapPrimsToIds idsByName ambiguousNames entityLabel rest with
    | .error e => .error e
    | .ok rest' => .ok (p :: rest')

/-- `mapNameValuesToIds` (app.ts:183). -/
def mapNameValuesToIds (idsByName : SMap) (ambiguousNames : StrSet)
    (entityLabel : String) (value : JVal) : Except String JVal :=
  match value with
  | .prim (.jstr s) =>
    (mapSingleNameToId idsByName ambiguousNames entityLabel s).map
      (fun i => .prim (.jstr i))
  | .list xs =>
    (mapPrimsToIds idsByName ambiguousNames entityLabel xs).map (fun l => .list l)
  | v => .ok v

/-- The payee-array loop of `mapRuleEntriesForImport` (app.ts:395-417):
auto-creates missing payees, threading the store and the name map. -/
def mapPayeePrims (lk : ImportLookups) (db : SchedDB) :
    List JPrim → ImportLookups × SchedDB × Except String (List JPrim)
  | [] => (lk, db, .ok [])
  | .jstr s :: rest =>
    match normalizeName s with
    | none =>
      let r := mapPayeePrims lk db rest
      (r.1, r.2.1, r.2.2.map (fun l => .jstr s :: l))
    | some normalized =>
      if setHas lk.payeeAmbiguousNames normalized then
        (lk, db, .error ("Payee name is ambiguous: " ++ s))
      else
        match mapGet lk.payeeIdsByName normalized with
        | some pid =>
          let r := mapPayeePrims lk db rest
          (r.1, r.2.1, r.2.2.map (fun l => .jstr pid :: l))
        | none =>
          let dbPid := insertPayee db s
          let lk1 := { lk with
            payeeIdsByName := mapSet lk.payeeIdsByName normalized dbPid.2 }
          let r := mapPayeePrims lk1 dbPid.1 rest
          (r.1, r.2.1, r.2.2.map (fun l => .jstr dbPid.2 :: l))
  | p :: rest =>
    let r := mapPayeePrims lk db rest
    (r.1, r.2.1, r.2.2.map (fun l => p :: l))

/-- The category-array mapper (app.ts:446-459), pairing values with their
exported group names positionally. -/
def mapCategoryPrims (clk : CategoryLookup) :
    List JPrim → List (Option String) → Except String (List JPrim)
  | [], _ => .ok []
  | .jstr s :: rest, gs =>
    match mapCategoryNameToId s (gs.headD none) clk with
    | .error e => .error e
    | .ok cid =>
      match mapCategoryPrims clk rest (gs.drop 1) with
      | .error e => .error e
      | .ok rest' => .ok (.jstr cid :: rest')
  | p :: rest, gs =>
    match mapCategoryPrims clk rest (gs.drop 1) with
    | .error e => .error e
    | .ok rest' => .ok (p :: rest')

/-- One entry of `mapRuleEntriesForImport` (app.ts:354-475). -/
def mapEntryForImport (lk : ImportLookups) (db : SchedDB) (entry : Entry) :
    ImportLookups × SchedDB × Except String Entry :=
  match entry.getStr "field" with
  | none => (lk, db, .ok entry)
  | some fld =>
    let canonicalField := getCanonicalRuleField fld
    let normalizedEntry := if canonicalField = fld then entry
      else entry.set "field" (.prim (.jstr canonicalField))
    if canonicalField = "account" then
      match mapNameValuesToIds lk.accountIdsByName lk.accountAmbiguousNames
          "Account" ((normalizedEntry.get "value").getD (.prim .null)) with
      | .error e => (lk, db, .error e)
      | .ok v' => (lk, db, .ok (normalizedEntry.set "value" v'))
    else if canonicalField = "payee" then
      match normalizedEntry.get "value" with
      | some (.prim (.jstr s)) =>
        match normalizeName s with
        | none => (lk, db, .ok normalizedEntry)
        | some normalized =>
          if setHas lk.payeeAmbiguousNames normalized then
            (lk, db, .error ("Payee name is ambiguous: " ++ s))
          else
            match mapGet lk.payeeIdsByName normalized with
            | some pid =>
              (lk, db, .ok (normalizedEntry.set "value" (.prim (.jstr pid))))
            | none =>
              let (db1, pid) := insertPayee db s
              let lk1 := { lk with
                payeeIdsByName := mapSet lk.payeeIdsByName normalized pid }
              (lk1, db1, .ok (normalizedEntry.set "value" (.prim (.jstr pid))))
      | some (.list xs) =>
        let r := mapPayeePrims lk db xs
        (r.1, r.2.1, r.2.2.map (fun l => normalizedEntry.set "value" (.list l)))
      | _ => (lk, db, .ok normalizedEntry)
    else if canonicalField = "category" then
      let categoryGroup := normalizedEntry.get "category_group"
      let categoryGroups := normalizedEntry.get "category_groups"
      let entryWithoutMeta := normalizedEntry.remove ["category_group", "category_groups"]
      match entryWithoutMeta.get "value" with
      | some (.prim (.jstr s)) =>
        match mapCategoryNameToId s
            (match categoryGroup with
             | some (.prim (.jstr g)) => some g
             | _ => none)
            lk.categoryLookup with
        | .error e => (lk, db, .error e)
        | .ok cid => (lk, db, .ok (entryWithoutMeta.set "value" (.prim (.jstr cid))))
      | some (.list xs) =>
        let gs : List (Option String) :=
          match categoryGroups with
          | some (.list gl) => gl.map (fun p =>
              match p with
              | .jstr g => some g
              | _ => none)
          | _ => []
        match mapCategoryPrims lk.categoryLookup xs gs with
        | .error e => (lk, db, .error e)
        | .ok xs' => (lk, db, .ok (entryWithoutMeta.set "value" (.list xs')))
      | _ =>
        (lk, db, .ok (entryWithoutMeta.set "value"
          ((entryWithoutMeta.get "value").getD (.prim .null))))
    else (lk, db, .ok normalizedEntry)

/-- `mapRuleEntriesForImport` (app.ts:337). -/
def mapRuleEntriesForImport (lk : ImportLookups) (db : SchedDB) :
    List Entry → ImportLookups × SchedDB × Except String (List Entry)
  | [] => (lk, db, .ok [])
  | e :: rest =>
    match mapEntryForImport lk db e with
    | (lk1, db1, .error msg) => (lk1, db1, .error msg)
    | (lk1, db1, .ok e') =>
      let r := mapRuleEntriesForImport lk1 db1 rest
      (r.1, r.2.1, r.2.2.map (fun l => e' :: l))

/-! ### The versioned transfer payload (`parseScheduleTransfer`, app.ts:480) -/

inductive EntriesField where
  | notArray (v : JVal)
  | entries (es : List Entry)
deriving DecidableEq, Repr

structure RuleSpec where
  stage : Option JPrim
  conditionsOp : Option JPrim
  conditions : Option EntriesField
  actions : Option EntriesField
deriving DecidableEq, Repr

inductive RuleItemField where
  | notObject (v : JPrim)
  | ruleObj (r : RuleSpec)
deriving DecidableEq, Repr

inductive ScheduleItem where
  | nonObject (v : JPrim)
  | item (name : Option JPrim) (postsTransaction : Option JPrim)
      (completed : Option JPrim) (rule : Option RuleItemField)
deriving DecidableEq, Repr

inductive SchedulesField where
  | notArray (v : JPrim)
  | arrOf (items : List ScheduleItem)
deriving DecidableEq, Repr

/-- The result of `JSON5.parse` on a schedules file, as far as the validation
distinguishes shapes. -/
inductive ParsedDoc where
  | notObject (v : JPrim)
  | doc (version : Option JPrim) (schedules : Option SchedulesField)
deriving DecidableEq, Repr

structure ScheduleTransferParsed where
  schedules : List ScheduleItem
deriving DecidableEq, Repr

def natToStr (n : Nat) : String := String.mk (natDigits 20 n)

def intToStr : Int → String
  | .ofNat m => natToStr m
  | .negSucc m => "-" ++ natToStr (m + 1)

/-- `String(parsed.version ?? 'missing')`. -/
def jPrimRepr : JPrim → String
  | .null => "missing"
  | .jbool b => if b then "true" else "false"
  | .jnum n => intToStr n
  | .jstr s => s

/-- `parseScheduleTransfer` (app.ts:480): the only throwing validation of
`importSchedules` — unparseable content, non-object payload, version other than
1, missing schedules array. -/
def parseScheduleTransfer (content : Option ParsedDoc) :
    Except String ScheduleTransferParsed :=
  match content with
  | none => .error "Unable to parse schedules file as JSON5"
  | some (.notObject _) => .error "Schedules file must be an object"
  | some (.doc version schedules) =>
    if version ≠ some (.jnum 1) then
      .error ("Unsupported schedules file version: " ++ jPrimRepr (version.getD .null))
    else
      match schedules with
      | some (.arrOf items) => .ok ⟨items⟩
      | some (.notArray _) => .error "Schedules file must contain a schedules array"
      | none => .error "Schedules file must contain a schedules array"

structure ScheduleImportError where
  scheduleName : Option JPrim
  message : String
deriving DecidableEq, Repr

structure ImportResult where
  imported : Nat
  skipped : Nat
  errors : List ScheduleImportError
deriving DecidableEq, Repr

/-- `scheduleItem?.name ?? null`. -/
def itemNameOrNull : ScheduleItem → Option JPrim
  | .nonObject _ => none
  | .item name _ _ _ =>
    match name with
    | some .null => none
    | some v => some v
    | none => none

/-- `Boolean(x)`. -/
def jTruthy : Option JPrim → Bool
  | some (.jbool b) => b
  | some .null => false
  | some (.jnum n) => n ≠ 0
  | some (.jstr s) => s ≠ ""
  | none => false

/-- `x ?? dflt`. -/
def jCoalesce (v : Option JPrim) (dflt : JPrim) : JPrim :=
  match v with
  | some .null => dflt
  | none => dflt
  | some x => x

/-- The fields of a schedule entry that passed the shape validations. -/
structure ValidatedItem where
  rspec : RuleSpec
  conds : List Entry
  acts : List Entry
  name : Option JPrim
  postsTx : Option JPrim
  completedF : Option JPrim
deriving Repr

/-- The per-entry validations of the import loop body (app.ts:936-947): shape
checks that throw before any store access. -/
def importEntryValidate (item : ScheduleItem) : Except String ValidatedItem :=
  match item with
  | .nonObject _ => .error "Invalid schedule entry"
  | .item name postsTx completedF ruleField =>
    match ruleField with
    | none => .error "Missing schedule rule payload"
    | some (.notObject _) => .error "Missing schedule rule payload"
    | some (.ruleObj rspec) =>
      match rspec.conditions with
      | none => .error "Schedule rule conditions must be an array"
      | some (.notArray _) => .error "Schedule rule conditions must be an array"
      | some (.entries conds) =>
        match rspec.actions with
        | none => .error "Schedule rule actions must be an array"
        | some (.notArray _) => .error "Schedule rule actions must be an array"
        | some (.entries acts) => .ok ⟨rspec, conds, acts, name, postsTx, completedF⟩

/-- The `schedule` argument the import passes to `createSchedule`
(app.ts:972-979): never a caller-supplied id. -/
def importPayload (name postsTx completedF : Option JPrim) : SchedulePayload :=
  { id := none
    name := match name with
      | some (.jstr s) => some s
      | _ => none
    postsTransaction := jTruthy postsTx
    completed := jTruthy completedF }

/-- The rule patch the import applies after creation (app.ts:985-994):
stage/conditionsOp from the payload (with `?? null` / `?? 'and'`), the mapped
conditions, and the regenerated link action ahead of the non-link actions. -/
def importRulePatch (rspec : RuleSpec) (sid : String)
    (mappedConditions mappedActions : List Entry) : RulePatch :=
  { stage := some (jCoalesce rspec.stage .null)
    conditionsOp := some (jCoalesce rspec.conditionsOp (.jstr "and"))
    conditions := some mappedConditions
    actions := some (linkScheduleAction sid ::
      mappedActions.filter (fun a =>
        !(a.isObj && a.getStr "op" == some "link-schedule"))) }

/-- The import loop body for one entry (app.ts:932-1011). -/
def importEntry (now : SDate) (nowMs : Int) (lk : ImportLookups) (db : SchedDB)
    (item : ScheduleItem) : ImportLookups × SchedDB × Option ScheduleImportError :=
  let scheduleName := itemNameOrNull item
  match importEntryValidate item with
  | .error msg => (lk, db, some ⟨scheduleName, msg⟩)
  | .ok v =>
    match mapRuleEntriesForImport lk db v.conds with
    | (lk1, db1, .error msg) => (lk1, db1, some ⟨scheduleName, msg⟩)
    | (lk1, db1, .ok mappedConditions) =>
      match mapRuleEntriesForImport lk1 db1 v.acts with
      | (lk2, db2, .error msg) => (lk2, db2, some ⟨scheduleName, msg⟩)
      | (lk2, db2, .ok mappedActions) =>
        match createSchedule now nowMs db2
            (some (importPayload v.name v.postsTx v.completedF))
            mappedConditions with
        | (db3, .error msg) => (lk2, db3, some ⟨scheduleName, msg⟩)
        | (db3, .ok sid) =>
          match getRuleForScheduleM db3 sid with
          | none =>
            (lk2, deleteSchedule db3 sid,
             some ⟨scheduleName, "Cannot read linked rule"⟩)
          | some linkedRule =>
            match updateRule db3 linkedRule.id
                (importRulePatch v.rspec sid mappedConditions mappedActions) with
            | (db4, .error msg) =>
              (lk2, deleteSchedule db4 sid, some ⟨scheduleName, msg⟩)
            | (db4, .ok _) => (lk2, db4, none)

/-- `importSchedules`'s lookup construction (app.ts:910-924). -/
def buildImportLookups (db : SchedDB) : ImportLookups :=
  let acc := buildNameLookup db.accounts
  let pay := buildNameLookup db.payees
  { accountIdsByName := acc.idsByName
    accountAmbiguousNames := acc.ambiguousNames
    payeeIdsByName := pay.idsByName
    payeeAmbiguousNames := pay.ambiguousNames
    categoryLookup := buildCategoryLookup db.categories }

/-- One iteration of the import loop, accumulating the result counters. -/
def importStep (now : SDate) (nowMs : Int)
    (st : ImportLookups × SchedDB × ImportResult) (item : ScheduleItem) :
    ImportLookups × SchedDB × ImportResult :=
  match importEntry now nowMs st.1 st.2.1 item with
  | (lk', db', none) =>
    (lk', db', { st.2.2 with imported := st.2.2.imported + 1 })
  | (lk', db', some err) =>
    (lk', db', { st.2.2 with skipped := st.2.2.skipped + 1
                             errors := st.2.2.errors ++ [err] })

/-- `importSchedules` (app.ts:903). -/
def importSchedules (now : SDate) (nowMs : Int) (db : SchedDB)
    (content : Option ParsedDoc) : SchedDB × Except String ImportResult :=
  match parseScheduleTransfer content with
  | .error e => (db, .error e)
  | .ok payload =>
    let lk0 := buildImportLookups db
    let st := payload.schedules.foldl (importStep now nowMs) (lk0, db, ⟨0, 0, []⟩)
    (st.2.1, .ok st.2.2)

/-! ### Per-entry atomicity of the import loop -/

def scheduleIds (db : SchedDB) : List String := db.schedules.map (fun s => s.id)

def ruleIds (db : SchedDB) : List String := db.rules.map (fun r => r.id)

/-- Freshness of the uuid supply: ids the generator will hand out do not occur
among existing schedule or rule ids. -/
def FreshIds (db : SchedDB) : Prop :=
  ∀ k, db.nextGen ≤ k → genId k ∉ scheduleIds db ∧ genId k ∉ ruleIds db

theorem freshIds_of_eq (a b : SchedDB) (hs : scheduleIds b = scheduleIds a)
    (hr : ruleIds b = ruleIds a) (hg : a.nextGen ≤ b.nextGen)
    (hF : FreshIds a) : FreshIds b := by
  intro k hk
  rw [hs, hr]
  exact hF k (le_trans hg hk)

theorem mapPayeePrims_frame (xs : List JPrim) :
    ∀ (lk : ImportLookups) (db : SchedDB),
      (mapPayeePrims lk db xs).2.1.schedules = db.schedules ∧
      (mapPayeePrims lk db xs).2.1.rules = db.rules ∧
      db.nextGen ≤ (mapPayeePrims lk db xs).2.1.nextGen := by
  induction xs with
  | nil => intro lk db; exact ⟨rfl, rfl, le_refl _⟩
  | cons p rest ih =>
    intro lk db
    match p with
    | .null | .jbool _ | .jnum _ =>
      simpa [mapPayeePrims] using ih lk db
    | .jstr s =>
      simp only [mapPayeePrims]
      match hn : normalizeName s with
      | none => simpa using ih lk db
      | some normalized =>
        by_cases hamb : setHas lk.payeeAmbiguousNames normalized
        · simp [hamb]
        · simp only [hamb, Bool.false_eq_true, if_false]
          match hg : mapGet lk.payeeIdsByName normalized with
          | some pid => simpa using ih lk db
          | none =>
            have hrec := ih ({ lk with payeeIdsByName := mapSet lk.payeeIdsByName normalized (insertPayee db s).2 }) ((insertPayee db s).1)
            dsimp only
            refine ⟨?_, ?_, ?_⟩
            · rw [hrec.1]; rfl
            · rw [hrec.2.1]; rfl
            · exact le_trans (by simp [insertPayee]) hrec.2.2

theorem mapEntryForImport_frame (lk : ImportLookups) (db : SchedDB) (e : Entry) :
    (mapEntryForImport lk db e).2.1.schedules = db.schedules ∧
    (mapEntryForImport lk db e).2.1.rules = db.rules ∧
    db.nextGen ≤ (mapEntryForImport lk db e).2.1.nextGen := by
  unfold mapEntryForImport
  match hf : e.getStr "field" with
  | none => exact ⟨rfl, rfl, le_refl _⟩
  | some fld =>
    simp only
    by_cases hacct : getCanonicalRuleField fld = "account"
    · rw [if_pos hacct]
      split <;> exact ⟨rfl, rfl, le_refl _⟩
    · rw [if_neg hacct]
      by_cases hpay : getCanonicalRuleField fld = "payee"
      · rw [if_pos hpay]
        split
        · -- single string payee
          split
          · exact ⟨rfl, rfl, le_refl _⟩
          · split
            · exact ⟨rfl, rfl, le_refl _⟩
            · split
              · exact ⟨rfl, rfl, le_refl _⟩
              · exact ⟨rfl, rfl, by simp [insertPayee]⟩
        · -- list payee
          exact mapPayeePrims_frame _ _ _
        · exact ⟨rfl, rfl, le_refl _⟩
      · rw [if_neg hpay]
        by_cases hcat : getCanonicalRuleField fld = "category"
        · rw [if_pos hcat]
          split
          · split <;> exact ⟨rfl, rfl, le_refl _⟩
          · split <;> exact ⟨rfl, rfl, le_refl _⟩
          · exact ⟨rfl, rfl, le_refl _⟩
        · rw [if_neg hcat]
          exact ⟨rfl, rfl, le_refl _⟩

theorem mapRuleEntriesForImport_frame (es : List Entry) :
    ∀ (lk : ImportLookups) (db : SchedDB),
      (mapRuleEntriesForImport lk db es).2.1.schedules = db.schedules ∧
      (mapRuleEntriesForImport lk db es).2.1.rules = db.rules ∧
      db.nextGen ≤ (mapRuleEntriesForImport lk db es).2.1.nextGen := by
  induction es with
  | nil => intro lk db; exact ⟨rfl, rfl, le_refl _⟩
  | cons e rest ih =>
    intro lk db
    have hhead := mapEntryForImport_frame lk db e
    simp only [mapRuleEntriesForImport]
    rcases hme : mapEntryForImport lk db e with ⟨lk1, db1, r1⟩
    rw [hme] at hhead
    match r1 with
    | .error msg => exact hhead
    | .ok e' =>
      have htail := ih lk1 db1
      refine ⟨?_, ?_, ?_⟩
      · rw [htail.1, hhead.1]
      · rw [htail.2.1, hhead.2.1]
      · exact le_trans hhead.2.2 htail.2.2

theorem find?_key_eq_none {α : Type} (key : α → String) (l : List α) (k : String)
    (h : ∀ a ∈ l, ¬key a = k) : l.find? (fun a => key a = k) = none := by
  induction l with
  | nil => rfl
  | cons x rest ih =>
    rw [List.find?_cons_of_neg _ (by simpa using h x (List.mem_cons_self _ _))]
    exact ih (fun a ha => h a (List.mem_cons_of_mem _ ha))

theorem find?_key_append_singleton {α : Type} (key : α → String) (l : List α)
    (x : α) (k : String) (h : ∀ a ∈ l, ¬key a = k) (hx : key x = k) :
    (l ++ [x]).find? (fun a => key a = k) = some x := by
  induction l with
  | nil => simp [List.find?_cons_of_pos, hx]
  | cons y rest ih =>
    rw [List.cons_append,
      List.find?_cons_of_neg _ (by simpa using h y (List.mem_cons_self _ _))]
    exact ih (fun a ha => h a (List.mem_cons_of_mem _ ha))

theorem filter_key_ne_append_singleton {α : Type} (key : α → String) (l : List α)
    (x : α) (k : String) (h : ∀ a ∈ l, ¬key a = k) (hx : key x = k) :
    (l ++ [x]).filter (fun a => key a ≠ k) = l := by
  rw [List.filter_append]
  have h1 : l.filter (fun a => key a ≠ k) = l :=
    List.filter_eq_self.mpr (fun a ha => by simpa using h a ha)
  have h2 : [x].filter (fun a => key a ≠ k) = [] := by simp [hx]
  rw [h1, h2, List.append_nil]

theorem not_mem_map_key {α : Type} (key : α → String) (l : List α) (k : String)
    (h : k ∉ l.map key) : ∀ a ∈ l, ¬key a = k := by
  intro a ha hq
  exact h (List.mem_map.mpr ⟨a, ha, hq⟩)

theorem findSchedule_append (l : List ScheduleRow) (x : ScheduleRow) (k : String)
    (h : ∀ a ∈ l, ¬a.id = k) (hx : x.id = k) :
    (l ++ [x]).find? (fun s => s.id = k) = some x :=
  find?_key_append_singleton (fun s => s.id) l x k h hx

theorem findRule_append (l : List RuleRow) (x : RuleRow) (k : String)
    (h : ∀ a ∈ l, ¬a.id = k) (hx : x.id = k) :
    (l ++ [x]).find? (fun r => r.id = k) = some x :=
  find?_key_append_singleton (fun r => r.id) l x k h hx

theorem filterSchedule_append (l : List ScheduleRow) (x : ScheduleRow) (k : String)
    (h : ∀ a ∈ l, ¬a.id = k) (hx : x.id = k) :
    (l ++ [x]).filter (fun s => s.id ≠ k) = l :=
  filter_key_ne_append_singleton (fun s => s.id) l x k h hx

theorem filterRule_append (l : List RuleRow) (x : RuleRow) (k : String)
    (h : ∀ a ∈ l, ¬a.id = k) (hx : x.id = k) :
    (l ++ [x]).filter (fun r => r.id ≠ k) = l :=
  filter_key_ne_append_singleton (fun r => r.id) l x k h hx

theorem not_id_of_not_mem_schedule (db : SchedDB) (k : String)
    (h : k ∉ scheduleIds db) : ∀ a ∈ db.schedules, ¬a.id = k := by
  unfold scheduleIds at h
  exact not_mem_map_key (fun s => s.id) db.schedules k h

theorem not_id_of_not_mem_rule (db : SchedDB) (k : String)
    (h : k ∉ ruleIds db) : ∀ a ∈ db.rules, ¬a.id = k := by
  unfold ruleIds at h
  exact not_mem_map_key (fun r => r.id) db.rules k h

/-- Behavior of `createSchedule` under a fresh id supply, when the caller
(the importer) does not supply an id: every error leaves the stores unchanged; a
success appends exactly one schedule row and one rule row with fresh linked
ids. -/
theorem createSchedule_fresh (now : SDate) (nowMs : Int) (db : SchedDB)
    (payload : SchedulePayload) (conditions : List Entry)
    (hid : payload.id = none) (hF : FreshIds db) :
    (∀ db' msg, createSchedule now nowMs db (some payload) conditions
        = (db', .error msg) →
      db'.schedules = db.schedules ∧ db'.rules = db.rules ∧
      db.nextGen ≤ db'.nextGen ∧ FreshIds db') ∧
    (∀ db' sid, createSchedule now nowMs db (some payload) conditions
        = (db', .ok sid) →
      ∃ srow rrow, sid = genId db.nextGen ∧ srow.id = sid ∧
        srow.ruleId = genId (db.nextGen + 1) ∧ rrow.id = genId (db.nextGen + 1) ∧
        db'.schedules = db.schedules ++ [srow] ∧
        db'.rules = db.rules ++ [rrow] ∧
        db'.nextGen = db.nextGen + 2 ∧ FreshIds db' ∧
        getRuleForScheduleM db' sid = some rrow) := by
  have hsupp : (some payload).bind (fun s => s.id) = none := by simp [hid]
  have hcase : ∀ (db'' : SchedDB),
      ({ db with nextGen := db.nextGen + 1 } : SchedDB) = db'' →
      db''.schedules = db.schedules ∧ db''.rules = db.rules ∧
      db.nextGen ≤ db''.nextGen ∧ FreshIds db'' := by
    intro db'' h
    subst h
    refine ⟨rfl, rfl, Nat.le_succ _, ?_⟩
    intro k hk
    have hk' : db.nextGen ≤ k := by
      have hk2 : db.nextGen + 1 ≤ k := hk
      omega
    exact hF k hk'
  constructor
  · intro db' msg heq
    unfold createSchedule at heq
    rw [hsupp] at heq
    simp only [Option.isSome_none, Bool.false_eq_true, if_false] at heq
    split at heq
    · exact hcase db' (Prod.ext_iff.mp heq).1
    · split at heq
      · exact hcase db' (Prod.ext_iff.mp heq).1
      · split at heq
        · exact hcase db' (Prod.ext_iff.mp heq).1
        · exact absurd (Prod.ext_iff.mp heq).2 (by simp)
  · intro db' sid heq
    unfold createSchedule at heq
    rw [hsupp] at heq
    simp only [Option.isSome_none, Bool.false_eq_true, if_false] at heq
    split at heq
    · exact absurd (Prod.ext_iff.mp heq).2 (by simp)
    · split at heq
      · exact absurd (Prod.ext_iff.mp heq).2 (by simp)
      · split at heq
        · exact absurd (Prod.ext_iff.mp heq).2 (by simp)
        · obtain ⟨h1, h2⟩ := Prod.ext_iff.mp heq
          have hsid : sid = genId db.nextGen := by simpa using h2.symm
          subst hsid
          subst h1
          refine ⟨_, _, rfl, rfl, rfl, rfl, rfl, rfl, rfl, ?_, ?_⟩
          · intro k hk
            have hk2 : db.nextGen + 2 ≤ k := hk
            constructor
            · intro hmem
              simp only [scheduleIds, List.map_append, List.mem_append] at hmem
              rcases hmem with hmem | hmem
              · exact (hF k (by omega)).1 hmem
              · simp only [List.map_cons, List.map_nil, List.mem_singleton] at hmem
                have := genId_injective hmem
                omega
            · intro hmem
              simp only [ruleIds, List.map_append, List.mem_append] at hmem
              rcases hmem with hmem | hmem
              · exact (hF k (by omega)).2 hmem
              · simp only [List.map_cons, List.map_nil, List.mem_singleton] at hmem
                have := genId_injective hmem
                omega
          · unfold getRuleForScheduleM SchedDB.findSchedule SchedDB.findRule
            dsimp only
            rw [findSchedule_append db.schedules _ (genId db.nextGen)
              (not_id_of_not_mem_schedule db _ (hF db.nextGen (le_refl _)).1) rfl]
            dsimp only
            rw [findRule_append db.rules _ (genId (db.nextGen + 1))
              (not_id_of_not_mem_rule db _ (hF (db.nextGen + 1) (Nat.le_succ _)).2) rfl]

theorem updateRule_frame (db : SchedDB) (rid : String) (patch : RulePatch) :
    (updateRule db rid patch).1.schedules = db.schedules ∧
    ruleIds (updateRule db rid patch).1 = ruleIds db ∧
    (updateRule db rid patch).1.nextGen = db.nextGen ∧
    (∀ msg, (updateRule db rid patch).2 = .error msg →
      (updateRule db rid patch).1 = db) := by
  unfold updateRule
  by_cases hst : stageOk patch.stage
  · simp only [hst, Bool.not_true, Bool.false_eq_true, if_false]
    match hf : db.findRule rid with
    | none => exact ⟨rfl, rfl, rfl, fun msg _ => rfl⟩
    | some r =>
      have hrid : r.id = rid := by
        have := List.find?_some hf
        simpa using this
      refine ⟨rfl, ?_, rfl, ?_⟩
      · unfold ruleIds
        dsimp only
        rw [List.map_map]
        apply List.map_congr_left
        intro x _
        by_cases hx : x.id = rid
        · simp [Function.comp_apply, hx, hrid]
        · simp [Function.comp_apply, hx]
      · intro msg h
        simp at h
  · simp [hst]

theorem deleteSchedule_appended (db2 db3 : SchedDB) (srow : ScheduleRow)
    (rrow : RuleRow)
    (hs : db3.schedules = db2.schedules ++ [srow])
    (hr : db3.rules = db2.rules ++ [rrow])
    (hsid : srow.id ∉ scheduleIds db2)
    (hrid : rrow.id ∉ ruleIds db2)
    (hlink : srow.ruleId = rrow.id) :
    scheduleIds (deleteSchedule db3 srow.id) = scheduleIds db2 ∧
    ruleIds (deleteSchedule db3 srow.id) = ruleIds db2 ∧
    (deleteSchedule db3 srow.id).nextGen = db3.nextGen := by
  have hfind : db3.findSchedule srow.id = some srow := by
    unfold SchedDB.findSchedule
    rw [hs]
    exact findSchedule_append db2.schedules srow srow.id
      (not_id_of_not_mem_schedule db2 _ hsid) rfl
  unfold deleteSchedule
  rw [hfind]
  simp only [Option.map_some']
  rw [hlink, hr, hs]
  rw [filterRule_append db2.rules rrow rrow.id
    (not_id_of_not_mem_rule db2 _ hrid) rfl]
  rw [filterSchedule_append db2.schedules srow srow.id
    (not_id_of_not_mem_schedule db2 _ hsid) rfl]
  refine ⟨?_, ?_, ?_⟩ <;> first | rfl | trivial


theorem importEntry_atomic (now : SDate) (nowMs : Int) (lk : ImportLookups)
    (db : SchedDB) (item : ScheduleItem) (hF : FreshIds db) :
    FreshIds (importEntry now nowMs lk db item).2.1 ∧
    db.nextGen ≤ (importEntry now nowMs lk db item).2.1.nextGen ∧
    ((importEntry now nowMs lk db item).2.2 = none →
      ∃ ns nr,
        scheduleIds (importEntry now nowMs lk db item).2.1
          = scheduleIds db ++ [ns] ∧
        ruleIds (importEntry now nowMs lk db item).2.1 = ruleIds db ++ [nr]) ∧
    ((importEntry now nowMs lk db item).2.2 ≠ none →
      scheduleIds (importEntry now nowMs lk db item).2.1 = scheduleIds db ∧
      ruleIds (importEntry now nowMs lk db item).2.1 = ruleIds db) := by
  unfold importEntry
  match hval : importEntryValidate item with
  | .error msg =>
    refine ⟨hF, le_refl _, ?_, fun _ => ⟨rfl, rfl⟩⟩
    intro h
    simp at h
  | .ok v =>
    dsimp only
    rcases hm1 : mapRuleEntriesForImport lk db v.conds with ⟨lk1, db1, r1⟩
    have hf1 := mapRuleEntriesForImport_frame v.conds lk db
    rw [hm1] at hf1
    obtain ⟨hf1s, hf1r, hf1g⟩ := hf1
    have hs1 : scheduleIds db1 = scheduleIds db :=
      congrArg (List.map (fun s : ScheduleRow => s.id)) hf1s
    have hr1 : ruleIds db1 = ruleIds db :=
      congrArg (List.map (fun r : RuleRow => r.id)) hf1r
    have hF1 : FreshIds db1 := freshIds_of_eq db db1 hs1 hr1 hf1g hF
    match r1 with
    | .error msg =>
      exact ⟨hF1, hf1g, by intro h; simp at h, fun _ => ⟨hs1, hr1⟩⟩
    | .ok mappedConditions =>
      dsimp only
      rcases hm2 : mapRuleEntriesForImport lk1 db1 v.acts with ⟨lk2, db2, r2⟩
      have hf2 := mapRuleEntriesForImport_frame v.acts lk1 db1
      rw [hm2] at hf2
      obtain ⟨hf2s, hf2r, hf2g⟩ := hf2
      have hs2 : scheduleIds db2 = scheduleIds db :=
        (congrArg (List.map (fun s : ScheduleRow => s.id)) hf2s).trans hs1
      have hr2 : ruleIds db2 = ruleIds db :=
        (congrArg (List.map (fun r : RuleRow => r.id)) hf2r).trans hr1
      have hg2 : db.nextGen ≤ db2.nextGen := le_trans hf1g hf2g
      have hF2 : FreshIds db2 := freshIds_of_eq db db2 hs2 hr2 hg2 hF
      match r2 with
      | .error msg =>
        exact ⟨hF2, hg2, by intro h; simp at h, fun _ => ⟨hs2, hr2⟩⟩
      | .ok mappedActions =>
        dsimp only
        rcases hc : createSchedule now nowMs db2
            (some (importPayload v.name v.postsTx v.completedF))
            mappedConditions with ⟨db3, rc⟩
        have hcf := createSchedule_fresh now nowMs db2
          (importPayload v.name v.postsTx v.completedF) mappedConditions rfl hF2
        match rc with
        | .error msg =>
          obtain ⟨h3s, h3r, h3g, hF3⟩ := hcf.1 db3 msg hc
          refine ⟨hF3, le_trans hg2 h3g, by intro h; simp at h, fun _ => ?_⟩
          constructor
          · exact (congrArg (List.map (fun s : ScheduleRow => s.id)) h3s).trans hs2
          · exact (congrArg (List.map (fun r : RuleRow => r.id)) h3r).trans hr2
        | .ok sid =>
          obtain ⟨srow, rrow, hsid, hsrowid, hsrowrule, hrrowid, h3s, h3r, h3g,
            hF3, hrule3⟩ := hcf.2 db3 sid hc
          dsimp only
          rw [hrule3]
          dsimp only
          have hg3 : db.nextGen ≤ db3.nextGen := by
            rw [h3g]
            omega
          have hsrow_not : srow.id ∉ scheduleIds db2 := by
            rw [hsrowid, hsid]
            exact (hF2 db2.nextGen (le_refl _)).1
          have hrrow_not : rrow.id ∉ ruleIds db2 := by
            rw [hrrowid]
            exact (hF2 (db2.nextGen + 1) (Nat.le_succ _)).2
          have hlink : srow.ruleId = rrow.id := by rw [hsrowrule, hrrowid]
          have hs3' : scheduleIds db3 = scheduleIds db ++ [srow.id] := by
            unfold scheduleIds
            rw [h3s, List.map_append]
            rw [show db2.schedules.map (fun s : ScheduleRow => s.id)
              = scheduleIds db from hs2]
            rfl
          have hr3' : ruleIds db3 = ruleIds db ++ [rrow.id] := by
            unfold ruleIds
            rw [h3r, List.map_append]
            rw [show db2.rules.map (fun r : RuleRow => r.id)
              = ruleIds db from hr2]
            rfl
          rcases hu : updateRule db3 rrow.id
              (importRulePatch v.rspec sid mappedConditions mappedActions)
            with ⟨db4, ru⟩
          have huf := updateRule_frame db3 rrow.id
            (importRulePatch v.rspec sid mappedConditions mappedActions)
          rw [hu] at huf
          obtain ⟨h4s, h4r, h4g, h4err⟩ := huf
          match ru with
          | .error msg =>
            have hdb4 : db4 = db3 := h4err msg rfl
            subst hdb4
            have hdel := deleteSchedule_appended db2 db4 srow rrow h3s h3r
              hsrow_not hrrow_not hlink
            rw [hsrowid] at hdel
            refine ⟨?_, ?_, by intro h; simp at h, fun _ => ?_⟩
            · refine freshIds_of_eq db2 (deleteSchedule db4 sid)
                hdel.1 hdel.2.1 ?_ hF2
              rw [hdel.2.2, h3g]
              omega
            · have hng : (deleteSchedule db4 sid).nextGen = db4.nextGen := hdel.2.2
              rw [hng, h3g]
              omega
            · exact ⟨hdel.1.trans hs2, hdel.2.1.trans hr2⟩
          | .ok _ =>
            refine ⟨?_, ?_, fun _ => ?_, by intro h; simp at h⟩
            · refine freshIds_of_eq db3 db4
                (congrArg (List.map (fun s : ScheduleRow => s.id)) h4s) h4r
                (le_of_eq h4g.symm) hF3
            · rw [h4g]
              exact hg3
            · exact ⟨srow.id, rrow.id,
                (congrArg (List.map (fun s : ScheduleRow => s.id)) h4s).trans hs3',
                h4r.trans hr3'⟩

theorem importFold_atomic (now : SDate) (nowMs : Int) (items : List ScheduleItem) :
    ∀ (lk : ImportLookups) (db : SchedDB) (res : ImportResult), FreshIds db →
      ∃ a b newErrs newS newR,
        (items.foldl (importStep now nowMs) (lk, db, res)).2.2.imported
          = res.imported + a ∧
        (items.foldl (importStep now nowMs) (lk, db, res)).2.2.skipped
          = res.skipped + b ∧
        a + b = items.length ∧
        (items.foldl (importStep now nowMs) (lk, db, res)).2.2.errors
          = res.errors ++ newErrs ∧
        newErrs.length = b ∧
        scheduleIds (items.foldl (importStep now nowMs) (lk, db, res)).2.1
          = scheduleIds db ++ newS ∧
        newS.length = a ∧
        ruleIds (items.foldl (importStep now nowMs) (lk, db, res)).2.1
          = ruleIds db ++ newR ∧
        newR.length = a ∧
        FreshIds (items.foldl (importStep now nowMs) (lk, db, res)).2.1 := by
  induction items with
  | nil =>
    intro lk db res hFr
    exact ⟨0, 0, [], [], [], rfl, rfl, rfl, by simp, rfl, by simp, rfl, by simp,
      rfl, hFr⟩
  | cons item rest ih =>
    intro lk db res hFr
    have hea := importEntry_atomic now nowMs lk db item hFr
    rcases he : importEntry now nowMs lk db item with ⟨lk', db', err?⟩
    rw [he] at hea
    have hF' : FreshIds db' := hea.1
    have hg' : db.nextGen ≤ db'.nextGen := hea.2.1
    match err? with
    | none =>
      have hstep : importStep now nowMs (lk, db, res) item
          = (lk', db', { res with imported := res.imported + 1 }) := by
        unfold importStep
        dsimp only
        rw [he]
      obtain ⟨ns, nr, hnss0, hnrr0⟩ := hea.2.2.1 rfl
      have hnss : scheduleIds db' = scheduleIds db ++ [ns] := hnss0
      have hnrr : ruleIds db' = ruleIds db ++ [nr] := hnrr0
      obtain ⟨a, b, newErrs, newS, newR, h1, h2, h3, h4, h5, h6, h7, h8, h9, h10⟩ :=
        ih lk' db' { res with imported := res.imported + 1 } hF'
      have h1' : (rest.foldl (importStep now nowMs)
          (lk', db', { res with imported := res.imported + 1 })).2.2.imported
          = res.imported + 1 + a := h1
      have h2' : (rest.foldl (importStep now nowMs)
          (lk', db', { res with imported := res.imported + 1 })).2.2.skipped
          = res.skipped + b := h2
      have h4' : (rest.foldl (importStep now nowMs)
          (lk', db', { res with imported := res.imported + 1 })).2.2.errors
          = res.errors ++ newErrs := h4
      rw [List.foldl_cons, hstep]
      refine ⟨a + 1, b, newErrs, ns :: newS, nr :: newR, ?_, h2', ?_, h4', h5,
        ?_, ?_, ?_, ?_, h10⟩
      · rw [h1']
        omega
      · simp only [List.length_cons]
        omega
      · rw [h6, hnss]
        simp
      · simpa using h7
      · rw [h8, hnrr]
        simp
      · simpa using h9
    | some err =>
      have hstep : importStep now nowMs (lk, db, res) item
          = (lk', db', { res with skipped := res.skipped + 1, errors := res.errors ++ [err] }) := by
        unfold importStep
        dsimp only
        rw [he]
      have hids := hea.2.2.2 (by simp)
      have hidsS : scheduleIds db' = scheduleIds db := hids.1
      have hidsR : ruleIds db' = ruleIds db := hids.2
      obtain ⟨a, b, newErrs, newS, newR, h1, h2, h3, h4, h5, h6, h7, h8, h9, h10⟩ :=
        ih lk' db' { res with skipped := res.skipped + 1, errors := res.errors ++ [err] } hF'
      have h1' : (rest.foldl (importStep now nowMs)
          (lk', db', { res with skipped := res.skipped + 1, errors := res.errors ++ [err] })).2.2.imported
          = res.imported + a := h1
      have h2' : (rest.foldl (importStep now nowMs)
          (lk', db', { res with skipped := res.skipped + 1, errors := res.errors ++ [err] })).2.2.skipped
          = res.skipped + 1 + b := h2
      have h4' : (rest.foldl (importStep now nowMs)
          (lk', db', { res with skipped := res.skipped + 1, errors := res.errors ++ [err] })).2.2.errors
          = (res.errors ++ [err]) ++ newErrs := h4
      rw [List.foldl_cons, hstep]
      refine ⟨a, b + 1, err :: newErrs, newS, newR, h1', ?_, ?_, ?_, ?_,
        ?_, h7, ?_, h9, h10⟩
      · rw [h2']
        omega
      · simp only [List.length_cons]
        omega
      · rw [h4']
        simp
      · simpa using h5
      · rw [h6, hidsS]
      · rw [h8, hidsR]

/-- C3: `importSchedules` is all-or-nothing per entry, never for the whole
batch.  The call itself fails only on payload-level malformation (unparseable
content, non-object payload, version ≠ 1, missing schedules array); otherwise it
returns a result where every entry is counted exactly once as imported or
skipped, each skipped entry contributed one `{scheduleName, message}` error, the
pre-existing schedule and rule rows are untouched, and exactly one new schedule
row and one new rule row remain per imported entry — a failed entry's partially
created schedule and linked rule having been deleted by its cleanup. -/
theorem importSchedules_per_entry_atomicity (now : SDate) (nowMs : Int)
    (db : SchedDB) (content : Option ParsedDoc) (hF : FreshIds db) :
    (∀ e, parseScheduleTransfer content = .error e →
      importSchedules now nowMs db content = (db, .error e)) ∧
    (∀ payload, parseScheduleTransfer content = .ok payload →
      ∃ db' res, importSchedules now nowMs db content = (db', .ok res) ∧
        res.imported + res.skipped = payload.schedules.length ∧
        res.errors.length = res.skipped ∧
        (∃ newS, scheduleIds db' = scheduleIds db ++ newS ∧
          newS.length = res.imported) ∧
        (∃ newR, ruleIds db' = ruleIds db ++ newR ∧
          newR.length = res.imported) ∧
        FreshIds db') := by
  constructor
  · intro e he
    unfold importSchedules
    rw [he]
  · intro payload hp
    unfold importSchedules
    rw [hp]
    obtain ⟨a, b, newErrs, newS, newR, h1, h2, h3, h4, h5, h6, h7, h8, h9, h10⟩ :=
      importFold_atomic now nowMs payload.schedules (buildImportLookups db) db
        ⟨0, 0, []⟩ hF
    have h1' : (payload.schedules.foldl (importStep now nowMs)
        (buildImportLookups db, db, (⟨0, 0, []⟩ : ImportResult))).2.2.imported
        = 0 + a := h1
    have h2' : (payload.schedules.foldl (importStep now nowMs)
        (buildImportLookups db, db, (⟨0, 0, []⟩ : ImportResult))).2.2.skipped
        = 0 + b := h2
    have h4' : (payload.schedules.foldl (importStep now nowMs)
        (buildImportLookups db, db, (⟨0, 0, []⟩ : ImportResult))).2.2.errors
        = newErrs := h4
    refine ⟨_, _, rfl, ?_, ?_, ⟨newS, h6, ?_⟩, ⟨newR, h8, ?_⟩, h10⟩
    · rw [h1', h2']
      omega
    · rw [h4', h2', h5]
      omega
    · rw [h1', h7]
      omega
    · rw [h1', h9]
      omega

/-- Concrete import fixture: a store with one account and no schedules or
rules, and a schedules file holding one entry with an invalid rule stage and
one valid entry. -/
def c3db : SchedDB :=
  { schedules := [], rules := [], nextDates := [], payees := [],
    accounts := [⟨"acct1", "Checking"⟩], categories := [], nextGen := 0 }

def c3accCond : Entry := Entry.node [("op", .prim (.jstr "is")),
  ("field", .prim (.jstr "account")), ("value", .prim (.jstr "Checking"))]

def c3dateCond : Entry := Entry.node [("op", .prim (.jstr "is")),
  ("field", .prim (.jstr "date")), ("value", .prim (.jstr "2025-02-01"))]

def c3good : ScheduleItem := .item (some (.jstr "Imported Schedule"))
  (some (.jbool false)) none
  (some (.ruleObj ⟨none, some (.jstr "and"),
    some (.entries [c3accCond, c3dateCond]), some (.entries [])⟩))

def c3bad : ScheduleItem := .item (some (.jstr "Bad Stage Schedule"))
  (some (.jbool false)) none
  (some (.ruleObj ⟨some (.jstr "invalid-stage"), some (.jstr "and"),
    some (.entries [c3accCond, c3dateCond]), some (.entries [])⟩))

def c3content : Option ParsedDoc :=
  some (.doc (some (.jnum 1)) (some (.arrOf [c3bad, c3good])))

def c3payload : ScheduleTransferParsed := ⟨[c3bad, c3good]⟩

/-- Witness for C3 at the concrete fixture: the import succeeds, its counts
partition the two entries, and exactly one schedule row and one rule row are
appended per imported entry. -/
theorem importSchedules_per_entry_atomicity_witness :
    ∃ db' res,
      importSchedules ⟨2025, 1, 1⟩ 0 c3db c3content = (db', .ok res) ∧
      res.imported + res.skipped = c3payload.schedules.length ∧
      res.errors.length = res.skipped ∧
      (∃ newS, scheduleIds db' = scheduleIds c3db ++ newS ∧
        newS.length = res.imported) ∧
      (∃ newR, ruleIds db' = ruleIds c3db ++ newR ∧
        newR.length = res.imported) ∧
      FreshIds db' :=
  (importSchedules_per_entry_atomicity ⟨2025, 1, 1⟩ 0 c3db c3content
    (fun _ _ => ⟨List.not_mem_nil _, List.not_mem_nil _⟩)).2 c3payload rfl
